import Mathlib

/-!
# Fleet-Mate-Linux: command security gate, command execution, log streaming

A shallow embedding of `internal/commands/executor.go`,
`internal/commands/log_reader.go` and, from `internal/websocket/client.go`, of
payload decoding, the command reader, the reconnect loop and the senders.

Modelling conventions.

* A Go `string` is a Lean `String`; every string operation the code uses
  (`==`, `strings.HasPrefix`, `strings.TrimPrefix`, `strings.Contains`,
  `strings.Split(_, "\n")`, `strings.Join(_, "\n")`, concatenation) is defined
  on the underlying sequence of characters `String.data`. The code compares
  against ASCII text only, so the unit of the sequence (byte or character) does
  not change any result.
* `sendMessage(msgType, data)` appends one `Event.send` to the trace of the
  handler; starting the external process appends one `Event.spawn`.
* What the operating system answers (the outcome of the process, the content
  of the file, the clock) is an argument of the handler.
* Go `int` values that only count list elements are `Nat`; values that may be
  negative are `Int`. `float64` progress is an exact rational.
* `log.Printf` and `time.Sleep` have no effect on the messages and are left out.
* A goroutine blocked in a read or a `select` is a step function over what that
  operation gives; the goroutines of a client are followed by the actions of the
  code on them (started, channel made, channel closed).
-/

namespace FleetMate

/-! ## Strings -/

/-- Go `strings.HasPrefix(s, pre)`. -/
def startsWith (s pre : String) : Bool :=
  pre.data.isPrefixOf s.data

/-- Go `strings.TrimPrefix(s, pre)`: `s` without the leading `pre`, or `s`
unchanged when it does not start with `pre`. -/
def trimLeading (s pre : String) : String :=
  if startsWith s pre then ⟨s.data.drop pre.data.length⟩ else s

/-- Substring test on character sequences: some suffix of the first list
starts with the second. -/
def containsList : List Char → List Char → Bool
  | [], sub => sub.isPrefixOf []
  | c :: s, sub => sub.isPrefixOf (c :: s) || containsList s sub

/-- Go `strings.Contains(s, substr)`. -/
def stringsContains (s substr : String) : Bool :=
  containsList s.data substr.data

/-- Go `strings.Split(s, "\n")`: the pieces between newlines; never empty. -/
def splitLines (s : String) : List String :=
  (s.data.splitOn '\n').map String.mk

/-- Go `strings.Join(elems, "\n")`. -/
def joinLines (elems : List String) : String :=
  ⟨['\n'].intercalate (elems.map String.data)⟩

/-- Go `%d` for an `int`. -/
def fmtInt (n : Int) : String :=
  toString n

/-! ## Messages and effects -/

/-- The struct `CommandOutputMessage`. -/
structure CommandOutputMessage where
  SessionID : String
  Content : String
  deriving DecidableEq, Repr

/-- The struct `CommandCompleteMessage`. -/
structure CommandCompleteMessage where
  SessionID : String
  ExitCode : Int
  deriving DecidableEq, Repr

/-- The struct `LogDataMessage`; `Progress` is kept as an exact rational. -/
structure LogDataMessage where
  SessionID : String
  Chunk : String
  Progress : ℚ
  CurrentLine : Nat
  TotalLines : Nat
  ChunkNumber : Nat
  TotalChunks : Nat
  deriving DecidableEq

/-- The struct `LogCompleteMessage`. -/
structure LogCompleteMessage where
  SessionID : String
  TotalSize : Nat
  deriving DecidableEq, Repr

/-- The `data interface{}` argument of `sendMessage`. -/
inductive Payload where
  | commandOutput (m : CommandOutputMessage)
  | commandComplete (m : CommandCompleteMessage)
  | logData (m : LogDataMessage)
  | logComplete (m : LogCompleteMessage)
  deriving DecidableEq

/-- An `error` value returned by a handler. -/
inductive GoError where
  /-- The value of `fmt.Errorf(errMsg)` in `HandleExecuteCommand`. -/
  | notWhitelisted (format : String)
  /-- The value of `fmt.Errorf("failed to read log file: %w", err)`. -/
  | readFailed (cause : String)
  deriving DecidableEq, Repr

/-- An observable effect of a handler. -/
inductive Event where
  /-- One call `sendMessage(msgType, data)`. -/
  | send (msgType : String) (data : Payload)
  /-- The external process started by `cmd.CombinedOutput()`: program, arguments,
  `cmd.Dir` and the deadline in nanoseconds. -/
  | spawn (command : String) (args : List String) (dir : String) (timeoutNanos : Int)
  deriving DecidableEq

/-! ## The command security gate (`executor.go`) -/

/-- The variable `allowedCommands`. -/
def allowedCommands : List String :=
  ["df", "free", "uptime", "uname", "hostname", "whoami", "date",
   "ls", "cat", "head", "tail", "grep", "find", "du", "pwd",
   "ps", "top", "htop", "pgrep", "pidof",
   "systemctl", "journalctl", "service",
   "ping", "curl", "wget", "netstat", "ss", "ip", "ifconfig",
   "dpkg", "apt", "yum", "rpm",
   "which", "whereis", "file", "stat", "wc", "sort", "uniq",
   "dmesg", "lsblk", "lsusb", "lspci", "env"]

/-- The variable `forbiddenCommands`. -/
def forbiddenCommands : List String :=
  ["rm", "dd", "mkfs", "fdisk", "parted",
   "chmod", "chown", "chgrp",
   "useradd", "userdel", "usermod", "passwd",
   "iptables", "ufw", "firewall-cmd",
   "shutdown", "reboot", "init", "halt", "poweroff"]

/-- The body of `isCommandAllowed` over a deny-list and an allow-list, with the
recursive call counted down by `fuel`; `none` when the fuel runs out. -/
def isCommandAllowedFuel (forbidden allowed : List String) : Nat → String → Option Bool
  | 0, _ => none
  | fuel + 1, command =>
    if forbidden.contains command then some false
    else if allowed.contains command then some true
    else if startsWith command "/usr/bin/" || startsWith command "/bin/" then
      let baseName := trimLeading command "/usr/bin/"
      let baseName := trimLeading baseName "/bin/"
      isCommandAllowedFuel forbidden allowed fuel baseName
    else some false

/-- The gate over arbitrary lists: `isCommandAllowedFuel` with one unit of fuel
per character of the command and one more, which is always enough
(`isCommandAllowedFuel_enough`). -/
def isCommandAllowedWith (forbidden allowed : List String) (command : String) : Bool :=
  (isCommandAllowedFuel forbidden allowed (command.data.length + 1) command).getD false

/-- The method `isCommandAllowed` over the program's two lists. -/
def isCommandAllowed (command : String) : Bool :=
  isCommandAllowedWith forbiddenCommands allowedCommands command

/-- A bare name: no `/` in it. -/
def isBareName (s : String) : Bool :=
  !s.data.contains '/'

/-! ## The command execution pipeline (`executor.go`) -/

/-- The struct `ExecuteCommandRequest`. -/
structure ExecuteCommandRequest where
  SessionID : String
  Command : String
  Args : List String
  WorkingDir : String
  Timeout : Int
  deriving DecidableEq, Repr

/-- The non-nil `err` of `cmd.CombinedOutput()`: an `*exec.ExitError` with its
`ExitCode()`, or any other error (the process could not be started, the
context error, an I/O error). -/
inductive RunError where
  | exitError (exitCode : Int)
  | other
  deriving DecidableEq, Repr

/-- What running the process gave: the captured bytes, the error, and whether
`ctx.Err() == context.DeadlineExceeded` when the handler looks at it. -/
structure RunOutcome where
  output : String
  err : Option RunError
  deadlineExceeded : Bool
  deriving DecidableEq, Repr

/-- A Go `int64` product, wrapped to two's complement. -/
def wrapInt64 (n : Int) : Int :=
  (n + 2 ^ 63) % 2 ^ 64 - 2 ^ 63

/-- The result of a handler: the effects in order and the returned `error`. -/
structure HandlerResult where
  events : List Event
  err : Option GoError
  deriving DecidableEq

/-- The method `HandleExecuteCommand`; `outcome` is what the operating system
answers when the process is run. -/
def HandleExecuteCommand (request : ExecuteCommandRequest) (outcome : RunOutcome) :
    HandlerResult :=
  if !isCommandAllowed request.Command then
    let errMsg := "Command not whitelisted: " ++ request.Command
    { events :=
        [ Event.send "command_error"
            (Payload.commandOutput
              { SessionID := request.SessionID, Content := errMsg ++ "\n" }),
          Event.send "command_complete"
            (Payload.commandComplete
              { SessionID := request.SessionID, ExitCode := 127 }) ],
      err := some (GoError.notWhitelisted errMsg) }
  else
    let timeout := wrapInt64 (request.Timeout * 1000000000)
    let timeout := if timeout = 0 then 300 * 1000000000 else timeout
    let dir := if request.WorkingDir ≠ "" then request.WorkingDir else ""
    let run := Event.spawn request.Command request.Args dir timeout
    let result :=
      match outcome.err with
      | some _ =>
        if outcome.deadlineExceeded then
          Event.send "command_error"
            (Payload.commandOutput
              { SessionID := request.SessionID,
                Content := "Command timeout after " ++ fmtInt request.Timeout ++ " seconds\n" })
        else
          Event.send "command_error"
            (Payload.commandOutput
              { SessionID := request.SessionID, Content := outcome.output })
      | none =>
        Event.send "command_output"
          (Payload.commandOutput
            { SessionID := request.SessionID, Content := outcome.output })
    let exitCode : Int :=
      match outcome.err with
      | some (RunError.exitError code) => code
      | some RunError.other => 1
      | none => 0
    { events :=
        [ run, result,
          Event.send "command_complete"
            (Payload.commandComplete
              { SessionID := request.SessionID, ExitCode := exitCode }) ],
      err := none }


/-! ## The log streaming pipeline (`log_reader.go`) -/

/-- The struct `ReadLogRequest`. -/
structure ReadLogRequest where
  SessionID : String
  Path : String
  Mode : String
  Lines : Int
  deriving DecidableEq, Repr

/-- The `keywords` of `filterRelevantLinesList` (smart mode). -/
def smartKeywords : List String :=
  ["error", "ERROR", "Error",
   "warn", "WARN", "warning", "Warning",
   "fail", "FAIL", "failed", "Failed",
   "critical", "CRITICAL", "Critical",
   "panic", "Panic", "PANIC",
   "segfault", "segmentation fault",
   "out of memory", "OOM", "oom",
   "authentication failure", "auth failed",
   "denied", "Denied", "DENIED",
   "timeout", "Timeout", "TIMEOUT",
   "refused", "Refused", "REFUSED",
   "exception", "Exception", "EXCEPTION"]

/-- The `keywords` of `filterErrorsOnlyList` (errors-only mode). -/
def errorKeywords : List String :=
  ["error", "ERROR", "Error",
   "critical", "CRITICAL", "Critical",
   "panic", "Panic", "PANIC",
   "fail", "FAIL", "failed", "Failed",
   "segfault", "segmentation fault",
   "exception", "Exception", "EXCEPTION"]

/-- The inner loop over `keywords`: some keyword occurs in the line. -/
def matchesAny (keywords : List String) (line : String) : Bool :=
  keywords.any (fun keyword => stringsContains line keyword)

/-- The method `filterRelevantLinesList`. -/
def filterRelevantLinesList (lines : List String) : List String :=
  let relevant := lines.filter (matchesAny smartKeywords)
  if relevant.length = 0 then
    let startIdx : Int := (lines.length : Int) - 50
    let startIdx : Int := if startIdx < 0 then 0 else startIdx
    lines.drop startIdx.toNat
  else
    relevant

/-- The method `filterErrorsOnlyList`. -/
def filterErrorsOnlyList (lines : List String) : List String :=
  let errors := lines.filter (matchesAny errorKeywords)
  if errors.length = 0 then
    ["No errors found in log file."]
  else
    errors

/-- The `switch request.Mode` of `HandleReadLogCommand`: the lines to stream. -/
def selectLines (mode : String) (allLines : List String) : List String :=
  if mode = "smart" then filterRelevantLinesList allLines
  else if mode = "errors-only" then filterErrorsOnlyList allLines
  else allLines

/-- The constant `linesPerChunk`. -/
def linesPerChunk : Nat := 1000

/-- The slice expression `xs[start:stop]`; `none` is the run-time panic of a slice
out of range. -/
def sliceLines (xs : List String) (start stop : Nat) : Option (List String) :=
  if start ≤ stop ∧ stop ≤ xs.length then some ((xs.drop start).take (stop - start))
  else none

/-- One iteration of the chunk loop of `HandleReadLogCommand`: the `log_data`
message of chunk `chunkNum`. -/
def logChunkMessage (sessionID : String) (linesToProcess : List String)
    (totalChunks chunkNum : Nat) : Option Event :=
  let start := chunkNum * linesPerChunk
  let stop := start + linesPerChunk
  let stop := if stop > linesToProcess.length then linesToProcess.length else stop
  match sliceLines linesToProcess start stop with
  | none => none
  | some chunkLines =>
    let chunk := joinLines chunkLines
    let progress : ℚ := (stop : ℚ) / (linesToProcess.length : ℚ) * 100
    some (Event.send "log_data"
      (Payload.logData
        { SessionID := sessionID,
          Chunk := chunk,
          Progress := progress,
          CurrentLine := stop,
          TotalLines := linesToProcess.length,
          ChunkNumber := chunkNum + 1,
          TotalChunks := totalChunks }))

/-- The method `HandleReadLogCommand`. `readFile` is `os.ReadFile` (the content,
or the text of the error), `nowMillis` is `time.Now().UnixMilli()`; the result is
`none` when the handler panics. -/
def HandleReadLogCommand (mateID : String) (readFile : String → Except String String)
    (nowMillis : Int) (request : ReadLogRequest) : Option HandlerResult :=
  match readFile request.Path with
  | Except.error cause => some { events := [], err := some (GoError.readFailed cause) }
  | Except.ok content =>
    let sessionID :=
      if request.SessionID = "" then mateID ++ "-" ++ fmtInt nowMillis
      else request.SessionID
    let allLines := splitLines content
    let linesToProcess := selectLines request.Mode allLines
    let totalChunks := (linesToProcess.length + linesPerChunk - 1) / linesPerChunk
    match (List.range totalChunks).mapM
        (logChunkMessage sessionID linesToProcess totalChunks) with
    | none => none
    | some chunks =>
      some
        { events :=
            chunks ++
              [ Event.send "log_complete"
                  (Payload.logComplete
                    { SessionID := sessionID, TotalSize := linesToProcess.length }) ],
          err := none }

/-! ## Reading a trace -/

/-- The messages of a trace, in order: the `(msgType, data)` of each
`sendMessage` call. -/
def sentMessages : List Event → List (String × Payload)
  | [] => []
  | Event.send msgType data :: rest => (msgType, data) :: sentMessages rest
  | Event.spawn _ _ _ _ :: rest => sentMessages rest

/-- The programs a trace starts, in order. -/
def spawned : List Event → List String
  | [] => []
  | Event.send _ _ :: rest => spawned rest
  | Event.spawn command _ _ _ :: rest => command :: spawned rest

/-- The `log_data` messages of a trace, in order. -/
def logDataOf : List Event → List LogDataMessage
  | [] => []
  | Event.send "log_data" (Payload.logData m) :: rest => m :: logDataOf rest
  | _ :: rest => logDataOf rest

/-- The `log_complete` messages of a trace, in order. -/
def logCompleteOf : List Event → List LogCompleteMessage
  | [] => []
  | Event.send "log_complete" (Payload.logComplete m) :: rest => m :: logCompleteOf rest
  | _ :: rest => logCompleteOf rest

/-- The form of a command the gate recurses on: both leading directories removed. -/
def pathStripped (command : String) : String :=
  trimLeading (trimLeading command "/usr/bin/") "/bin/"

/-- The session identifier `HandleReadLogCommand` uses. -/
def logSessionID (mateID : String) (nowMillis : Int) (request : ReadLogRequest) : String :=
  if request.SessionID = "" then mateID ++ "-" ++ fmtInt nowMillis else request.SessionID

/-- The lines of chunk `chunkNum` (0-based) of a list of lines. -/
def chunkLinesAt (lines : List String) (chunkNum : Nat) : List String :=
  (lines.drop (chunkNum * 1000)).take 1000

/-! ## Decoding a command payload (`client.go`) -/

/-- A dynamic value held in a payload (`interface{}`): what `encoding/json` puts
there, and a Go `int`. A `float64` is kept as its exact rational value. -/
inductive JsonValue where
  | null
  | bool (b : Bool)
  | int (n : Int)
  | float64 (v : ℚ)
  | string (s : String)
  | array (elems : List JsonValue)
  | object (fields : List (String × JsonValue))

/-- The value of a rational with its fraction discarded (truncation toward zero). -/
def truncToZero (v : ℚ) : Int :=
  v.num.tdiv (v.den : Int)

/-- The Go conversion `int(v)` of a `float64` to the 64-bit `int`: the fraction is
discarded when the result fits in `-2^63 .. 2^63 - 1`. For a value that does not
fit the language leaves the result to the implementation; it is taken here as
what amd64 gives, the least `int`, `-2^63`. -/
def floatToInt (v : ℚ) : Int :=
  if -2 ^ 63 ≤ truncToZero v ∧ truncToZero v < 2 ^ 63 then truncToZero v else -2 ^ 63

/-- The function `getStringFromPayload`; `payload key` is the map lookup
`payload[key]` (`none` when the key is absent, as in a nil map). -/
def getStringFromPayload (payload : String → Option JsonValue) (key : String)
    (defaultValue : String) : String :=
  match payload key with
  | some (JsonValue.string str) => str
  | _ => defaultValue

/-- The function `getIntFromPayload`. -/
def getIntFromPayload (payload : String → Option JsonValue) (key : String)
    (defaultValue : Int) : Int :=
  match payload key with
  | some (JsonValue.int v) => v
  | some (JsonValue.float64 v) => floatToInt v
  | _ => defaultValue

/-- The loop `for _, arg := range argsSlice` of `handleExecuteCommand`: the
elements that are strings, appended in order. -/
def stringElements : List JsonValue → List String
  | [] => []
  | JsonValue.string argStr :: rest => argStr :: stringElements rest
  | _ :: rest => stringElements rest

/-- The request `handleExecuteCommand` builds from a payload. -/
def executeRequestOf (payload : String → Option JsonValue) : ExecuteCommandRequest :=
  let sessionID := getStringFromPayload payload "sessionId" ""
  let command := getStringFromPayload payload "command" ""
  let workingDir := getStringFromPayload payload "workingDir" "/tmp"
  let timeout := getIntFromPayload payload "timeout" 300
  let args : List String :=
    match payload "args" with
    | some (JsonValue.array argsSlice) => stringElements argsSlice
    | _ => []
  { SessionID := sessionID,
    Command := command,
    Args := args,
    WorkingDir := workingDir,
    Timeout := timeout }

/-- The method `handleExecuteCommand`: the request is built from the payload and
handed to `HandleExecuteCommand`. -/
def handleExecuteCommand (payload : String → Option JsonValue) (outcome : RunOutcome) :
    HandlerResult :=
  HandleExecuteCommand (executeRequestOf payload) outcome

/-! ## The command reader (`client.go`, `readCommands`) -/

/-- The error of `c.conn.ReadJSON`: a `*websocket.CloseError` with its code, or
any other error. -/
inductive ReadError where
  | closeError (code : Int)
  | other
  deriving DecidableEq, Repr

/-- The constant `websocket.CloseNormalClosure`. -/
def CloseNormalClosure : Int := 1000

/-- The library predicate `websocket.IsCloseError(err, codes...)`: a close error
whose code is one of `codes`. -/
def IsCloseError (err : ReadError) (codes : List Int) : Bool :=
  match err with
  | ReadError.closeError code => codes.contains code
  | ReadError.other => false

/-- The library predicate `websocket.IsUnexpectedCloseError(err, expectedCodes...)`:
a close error whose code is none of `expectedCodes`. -/
def IsUnexpectedCloseError (err : ReadError) (expectedCodes : List Int) : Bool :=
  match err with
  | ReadError.closeError code => !expectedCodes.contains code
  | ReadError.other => false

/-- What one turn of the loop of `readCommands` observes: the `done` channel
closed, or the result of one `ReadJSON` (a command with its type, or an error). -/
inductive ReaderInput where
  | doneClosed
  | command (cmdType : String)
  | failed (err : ReadError)
  deriving DecidableEq, Repr

/-- The state of `readCommands`: the local `errorCount`, whether the loop is still
running, what the reader did to the connection, and the commands it handed to
`handleCommand`. -/
structure ReaderState where
  errorCount : Nat
  running : Bool
  socketClosed : Bool
  lossSignalled : Bool
  handled : List String
  deriving DecidableEq, Repr

/-- The state `readCommands` starts in. -/
def readerStart : ReaderState :=
  { errorCount := 0, running := true, socketClosed := false, lossSignalled := false,
    handled := [] }

/-- The constant `maxConsecutiveErrors`. -/
def maxConsecutiveErrors : Nat := 5

/-- One turn of the loop of `readCommands`; a reader that has returned does
nothing more. -/
def readerStep (s : ReaderState) (input : ReaderInput) : ReaderState :=
  if !s.running then s
  else
    match input with
    | ReaderInput.doneClosed => { s with running := false }
    | ReaderInput.failed err =>
      let errorCount := s.errorCount + 1
      if IsCloseError err [CloseNormalClosure] then
        { s with errorCount := errorCount, running := false }
      else if IsUnexpectedCloseError err [] || errorCount ≥ maxConsecutiveErrors then
        { s with errorCount := errorCount, running := false, socketClosed := true,
                 lossSignalled := true }
      else
        { s with errorCount := errorCount }
    | ReaderInput.command cmdType =>
      { s with errorCount := 0, handled := s.handled ++ [cmdType] }

/-- The reader over a sequence of inputs. -/
def readerRun (s : ReaderState) (inputs : List ReaderInput) : ReaderState :=
  inputs.foldl readerStep s

/-! ## The connection lifecycle (`client.go`, `Run`) -/

/-- Where `Run` is: about to call `Connect` at the top of the loop, blocked in
the `select` after the reconnect budget is used up, blocked in the `select` of a
live connection, blocked in the `select` after a connection loss, or returned. -/
inductive RunPhase where
  | connecting
  | listenerAfterMax
  | connected
  | listenerAfterLoss
  | returned
  deriving DecidableEq, Repr

/-- What the blocking operation `Run` is in gives: the result of `Connect` (and
of `Start` after it), or the case of the `select` that fired. -/
inductive RunEvent where
  | connectFailed
  | connectSucceeded (startOk : Bool)
  | wakeup
  | timeout
  | done
  | disconnected
  deriving DecidableEq, Repr

/-- The state of `Run`: the phase and the local `attemptCount`. -/
structure RunState where
  phase : RunPhase
  attemptCount : Int
  deriving DecidableEq, Repr

/-- The state `Run` starts in. -/
def runStart : RunState :=
  { phase := RunPhase.connecting, attemptCount := 0 }

/-- One step of `Run`; `none` when the operation `Run` is blocked in cannot give
that event (the `select` has no such case). -/
def runStep (maxAttempts : Int) (s : RunState) (e : RunEvent) : Option RunState :=
  match s.phase, e with
  | RunPhase.connecting, RunEvent.connectFailed =>
    let attemptCount := wrapInt64 (s.attemptCount + 1)
    if maxAttempts > 0 ∧ attemptCount ≥ maxAttempts then
      some { phase := RunPhase.listenerAfterMax, attemptCount := attemptCount }
    else
      some { phase := RunPhase.connecting, attemptCount := attemptCount }
  | RunPhase.connecting, RunEvent.connectSucceeded startOk =>
    if startOk then some { phase := RunPhase.connected, attemptCount := 0 }
    else some { phase := RunPhase.connecting, attemptCount := 0 }
  | RunPhase.listenerAfterMax, RunEvent.wakeup =>
    some { phase := RunPhase.connecting, attemptCount := 0 }
  | RunPhase.listenerAfterMax, RunEvent.done =>
    some { s with phase := RunPhase.returned }
  | RunPhase.connected, RunEvent.disconnected =>
    some { s with phase := RunPhase.listenerAfterLoss }
  | RunPhase.connected, RunEvent.done =>
    some { s with phase := RunPhase.returned }
  | RunPhase.listenerAfterLoss, RunEvent.wakeup =>
    some { s with phase := RunPhase.connecting }
  | RunPhase.listenerAfterLoss, RunEvent.timeout =>
    some { s with phase := RunPhase.connecting }
  | RunPhase.listenerAfterLoss, RunEvent.done =>
    some { s with phase := RunPhase.returned }
  | _, _ => none

/-- The steps of `Run` over a sequence of events. -/
def runSteps (maxAttempts : Int) : RunState → List RunEvent → Option RunState
  | s, [] => some s
  | s, e :: rest =>
    match runStep maxAttempts s e with
    | none => none
    | some s' => runSteps maxAttempts s' rest

/-! ## Senders and their cancellation channel (`client.go`) -/

/-- The goroutines and `done` channels of a `Client`. Channels are numbered in
the order `Run` makes them; `c.done` is the last one made. Each live sender is
listed with the number of the channel that was `c.done` when it was started. -/
structure SenderState where
  channelsMade : Nat
  closedChannels : List Nat
  statsSenders : List Nat
  heartbeatSenders : List Nat
  connOpen : Bool
  lossSignalled : Bool
  deriving DecidableEq, Repr

/-- The actions of the code on the senders and their channel. -/
inductive SenderAction where
  /-- The assignment `c.done = make(chan struct{})` at the top of the loop of `Run`. -/
  | makeChannels
  /-- The method `Connect` returning nil. -/
  | connect
  /-- The method `Start`: `go c.sendStats()` and `go c.sendHeartbeats()`. -/
  | start
  /-- The branch of `readCommands` that declares the connection dead. -/
  | readerDeclaresDead
  /-- The method `Stop`: `close(c.done)`. -/
  | stop
  /-- Every live sender runs its `select` once: it returns when `c.done` is closed. -/
  | sendersSelect
  deriving DecidableEq, Repr

/-- The effect of one action. -/
def senderStep (s : SenderState) (a : SenderAction) : SenderState :=
  match a with
  | SenderAction.makeChannels =>
    { s with channelsMade := s.channelsMade + 1, lossSignalled := false }
  | SenderAction.connect => { s with connOpen := true }
  | SenderAction.start =>
    { s with statsSenders := s.statsSenders ++ [s.channelsMade],
             heartbeatSenders := s.heartbeatSenders ++ [s.channelsMade] }
  | SenderAction.readerDeclaresDead => { s with connOpen := false, lossSignalled := true }
  | SenderAction.stop =>
    { s with closedChannels := s.closedChannels ++ [s.channelsMade], connOpen := false }
  | SenderAction.sendersSelect =>
    if s.closedChannels.contains s.channelsMade then
      { s with statsSenders := [], heartbeatSenders := [] }
    else s

/-- The state of a new `Client`. -/
def senderStart : SenderState :=
  { channelsMade := 0, closedChannels := [], statsSenders := [], heartbeatSenders := [],
    connOpen := false, lossSignalled := false }

/-- The actions of a sequence, in order. -/
def senderRun (s : SenderState) (actions : List SenderAction) : SenderState :=
  actions.foldl senderStep s

/-- The directories the gate strips. -/
def standardDirectories : List String :=
  ["/usr/bin/", "/bin/"]

/-- The concatenation of a list of strings. -/
def concatAll : List String → String
  | [] => ""
  | p :: rest => p ++ concatAll rest

/-- A failed read that is not a close error. -/
def isTransient : ReaderInput → Bool
  | ReaderInput.failed ReadError.other => true
  | _ => false

/-- The number of failed reads at the end of a sequence of inputs: the
consecutive failures since the last command, or since the start. -/
def trailingTransient (inputs : List ReaderInput) : Nat :=
  (inputs.reverse.takeWhile isTransient).length

/-- The string of an element of `args`, when it is one. -/
def stringOf : JsonValue → Option String
  | JsonValue.string s => some s
  | _ => none



/-! ## Lemmas on strings -/

theorem trimLeading_length_le (s pre : String) :
    (trimLeading s pre).data.length ≤ s.data.length := by
  unfold trimLeading
  split
  · simp
  · exact le_refl _

theorem trimLeading_length_lt (s pre : String) (h : startsWith s pre = true)
    (hpre : 0 < pre.data.length) :
    (trimLeading s pre).data.length < s.data.length := by
  have hle : pre.data.length ≤ s.data.length := by
    unfold startsWith at h
    exact (List.isPrefixOf_iff_prefix.mp h).length_le
  unfold trimLeading
  rw [if_pos h]
  simp only [List.length_drop]
  omega

theorem startsWith_append (pre c : String) : startsWith (pre ++ c) pre = true := by
  unfold startsWith
  rw [List.isPrefixOf_iff_prefix, String.data_append]
  exact List.prefix_append _ _

theorem trimLeading_append (pre c : String) : trimLeading (pre ++ c) pre = c := by
  unfold trimLeading
  rw [if_pos (startsWith_append pre c)]
  apply String.ext
  simp [String.data_append]

theorem baseName_length_lt (command : String)
    (h : (startsWith command "/usr/bin/" || startsWith command "/bin/") = true) :
    (trimLeading (trimLeading command "/usr/bin/") "/bin/").data.length
      < command.data.length := by
  by_cases h1 : startsWith command "/usr/bin/" = true
  · have a := trimLeading_length_lt command "/usr/bin/" h1 (by decide)
    have b := trimLeading_length_le (trimLeading command "/usr/bin/") "/bin/"
    omega
  · have h2 : startsWith command "/bin/" = true := by
      simpa [h1] using h
    have e : trimLeading command "/usr/bin/" = command := by
      unfold trimLeading
      rw [if_neg h1]
    rw [e]
    exact trimLeading_length_lt command "/bin/" h2 (by decide)

/-! ## Lemmas on the gate -/

theorem isCommandAllowedFuel_add (forbidden allowed : List String) :
    ∀ (fuel k : Nat) (command : String), command.data.length < fuel →
      isCommandAllowedFuel forbidden allowed (fuel + k) command
        = isCommandAllowedFuel forbidden allowed fuel command := by
  intro fuel
  induction fuel with
  | zero => intro k command h; omega
  | succ n ih =>
    intro k command h
    rw [show n + 1 + k = (n + k) + 1 by omega]
    unfold isCommandAllowedFuel
    split
    · rfl
    · split
      · rfl
      · split
        · next hp =>
          have := baseName_length_lt command hp
          exact ih k _ (by omega)
        · rfl

theorem isCommandAllowedFuel_isSome (forbidden allowed : List String) :
    ∀ (fuel : Nat) (command : String), command.data.length < fuel →
      (isCommandAllowedFuel forbidden allowed fuel command).isSome = true := by
  intro fuel
  induction fuel with
  | zero => intro command h; omega
  | succ n ih =>
    intro command h
    unfold isCommandAllowedFuel
    split
    · rfl
    · split
      · rfl
      · split
        · next hp =>
          have := baseName_length_lt command hp
          exact ih _ (by omega)
        · rfl

/-- Enough fuel: with more fuel than the command has characters the counted
recursion returns, and what it returns is the value of the gate. -/
theorem isCommandAllowedFuel_enough (forbidden allowed : List String) (fuel : Nat)
    (command : String) (h : command.data.length < fuel) :
    isCommandAllowedFuel forbidden allowed fuel command
      = some (isCommandAllowedWith forbidden allowed command) := by
  have e : isCommandAllowedFuel forbidden allowed fuel command
      = isCommandAllowedFuel forbidden allowed (command.data.length + 1) command := by
    have := isCommandAllowedFuel_add forbidden allowed (command.data.length + 1)
      (fuel - (command.data.length + 1)) command (by omega)
    rw [← this]
    congr 1
    omega
  have s := isCommandAllowedFuel_isSome forbidden allowed (command.data.length + 1) command
    (by omega)
  unfold isCommandAllowedWith
  rw [e]
  cases hv : isCommandAllowedFuel forbidden allowed (command.data.length + 1) command with
  | none => rw [hv] at s; cases s
  | some b => rfl

/-- The gate satisfies the equation of the source function. -/
theorem isCommandAllowedWith_eq (forbidden allowed : List String) (command : String) :
    isCommandAllowedWith forbidden allowed command =
      if forbidden.contains command then false
      else if allowed.contains command then true
      else if startsWith command "/usr/bin/" || startsWith command "/bin/" then
        isCommandAllowedWith forbidden allowed
          (trimLeading (trimLeading command "/usr/bin/") "/bin/")
      else false := by
  have h := isCommandAllowedFuel_enough forbidden allowed (command.data.length + 1) command
    (by omega)
  unfold isCommandAllowedFuel at h
  split
  · next h1 => rw [if_pos h1] at h; exact (Option.some.inj h).symm
  · next h1 =>
    rw [if_neg h1] at h
    split
    · next h2 => rw [if_pos h2] at h; exact (Option.some.inj h).symm
    · next h2 =>
      rw [if_neg h2] at h
      split
      · next h3 =>
        rw [if_pos h3] at h
        have hl := baseName_length_lt command h3
        rw [isCommandAllowedFuel_enough forbidden allowed _ _ (by omega)] at h
        exact (Option.some.inj h).symm
      · next h3 => rw [if_neg h3] at h; exact (Option.some.inj h).symm


theorem startsWith_not_bare (c pre : String) (h : startsWith c pre = true)
    (hpre : pre.data.contains '/' = true) : isBareName c = false := by
  unfold startsWith at h
  obtain ⟨t, ht⟩ := List.isPrefixOf_iff_prefix.mp h
  unfold isBareName
  have hm : '/' ∈ pre.data := by simpa using hpre
  have : '/' ∈ c.data := by
    rw [← ht]
    exact List.mem_append_left _ hm
  simp [this]

theorem contains_eq_false_of_not_bare (names : List String) (c : String)
    (hnames : names.all isBareName = true) (hc : isBareName c = false) :
    names.contains c = false := by
  cases hm : names.contains c with
  | false => rfl
  | true =>
    have hmem : c ∈ names := by simpa using hm
    have := (List.all_eq_true.mp hnames) c hmem
    rw [hc] at this
    cases this

theorem trimLeading_of_bare (b pre : String) (hb : isBareName b = true)
    (hpre : pre.data.contains '/' = true) : trimLeading b pre = b := by
  unfold trimLeading
  split
  · next h =>
    have := startsWith_not_bare b pre h hpre
    rw [hb] at this
    cases this
  · rfl

theorem startsWith_bin_usr (d : String) : startsWith ("/bin/" ++ d) "/usr/bin/" = false := by
  unfold startsWith
  rw [String.data_append]
  rfl

/-- Stripping: the gate on a command with a leading `/bin/`. -/
theorem gate_bin (forbidden allowed : List String) (d : String)
    (hF : forbidden.all isBareName = true) (hA : allowed.all isBareName = true) :
    isCommandAllowedWith forbidden allowed ("/bin/" ++ d)
      = isCommandAllowedWith forbidden allowed d := by
  have hs := startsWith_append "/bin/" d
  have hb := startsWith_not_bare _ _ hs (by decide)
  rw [isCommandAllowedWith_eq forbidden allowed ("/bin/" ++ d)]
  rw [contains_eq_false_of_not_bare forbidden _ hF hb,
    contains_eq_false_of_not_bare allowed _ hA hb, hs, startsWith_bin_usr]
  have e1 : trimLeading ("/bin/" ++ d) "/usr/bin/" = "/bin/" ++ d := by
    unfold trimLeading
    rw [startsWith_bin_usr]
    rfl
  rw [e1, trimLeading_append]
  rfl

/-- Stripping: the gate on a command with a leading `/usr/bin/`. -/
theorem gate_usr_bin (forbidden allowed : List String) (c : String)
    (hF : forbidden.all isBareName = true) (hA : allowed.all isBareName = true) :
    isCommandAllowedWith forbidden allowed ("/usr/bin/" ++ c)
      = isCommandAllowedWith forbidden allowed c := by
  have hs := startsWith_append "/usr/bin/" c
  have hb := startsWith_not_bare _ _ hs (by decide)
  rw [isCommandAllowedWith_eq forbidden allowed ("/usr/bin/" ++ c)]
  rw [contains_eq_false_of_not_bare forbidden _ hF hb,
    contains_eq_false_of_not_bare allowed _ hA hb, hs, trimLeading_append]
  simp only [Bool.false_eq_true, if_false, Bool.true_or, if_true]
  by_cases h : startsWith c "/bin/" = true
  · obtain ⟨t, ht⟩ := List.isPrefixOf_iff_prefix.mp h
    have hc : c = "/bin/" ++ String.mk t := by
      apply String.ext
      rw [String.data_append, ← ht]
    rw [hc, trimLeading_append, gate_bin forbidden allowed _ hF hA]
  · have : trimLeading c "/bin/" = c := by
      unfold trimLeading
      rw [if_neg h]
    rw [this]

/-- C1. For every deny-list and allow-list of bare names and every command `c`:
when `c` is in the deny-list, or `c` is a standard directory followed by a name of
the deny-list, or `c` starts with `/usr/bin/` or `/bin/` and the form the gate
strips it to is in the deny-list, the gate rejects `c`, whatever the allow-list
holds; the counted recursion returns that answer for every sufficient fuel. -/
theorem c1_deny_list_wins (forbidden allowed : List String) (c : String)
    (hF : forbidden.all isBareName = true) (hA : allowed.all isBareName = true)
    (h : c ∈ forbidden
      ∨ (∃ b, b ∈ forbidden ∧ (c = "/usr/bin/" ++ b ∨ c = "/bin/" ++ b))
      ∨ ((startsWith c "/usr/bin/" = true ∨ startsWith c "/bin/" = true)
          ∧ pathStripped c ∈ forbidden)) :
    isCommandAllowedWith forbidden allowed c = false
      ∧ ∀ fuel, c.data.length < fuel →
          isCommandAllowedFuel forbidden allowed fuel c = some false := by
  have deny : ∀ x, x ∈ forbidden → isCommandAllowedWith forbidden allowed x = false := by
    intro x hx
    rw [isCommandAllowedWith_eq]
    have : forbidden.contains x = true := by simpa using hx
    rw [if_pos this]
  have main : isCommandAllowedWith forbidden allowed c = false := by
    rcases h with h | ⟨b, hb, rfl | rfl⟩ | ⟨hp, hs⟩
    · exact deny c h
    · rw [gate_usr_bin forbidden allowed b hF hA]
      exact deny b hb
    · rw [gate_bin forbidden allowed b hF hA]
      exact deny b hb
    · rw [isCommandAllowedWith_eq]
      split
      · rfl
      · have hb : isBareName c = false := by
          rcases hp with hp | hp
          · exact startsWith_not_bare _ _ hp (by decide)
          · exact startsWith_not_bare _ _ hp (by decide)
        rw [contains_eq_false_of_not_bare allowed _ hA hb]
        have hor : (startsWith c "/usr/bin/" || startsWith c "/bin/") = true := by
          rcases hp with hp | hp <;> simp [hp]
        simp only [Bool.false_eq_true, if_false]
        rw [if_pos hor]
        exact deny _ hs
  refine ⟨main, ?_⟩
  intro fuel hfuel
  rw [isCommandAllowedFuel_enough forbidden allowed fuel c hfuel, main]

/-- Witness of C1 on the program's lists: `rm`, `/bin/rm` and `/usr/bin/shutdown`. -/
theorem c1_deny_list_wins_witness :
    forbiddenCommands.all isBareName = true ∧ allowedCommands.all isBareName = true
      ∧ isCommandAllowed "rm" = false
      ∧ isCommandAllowed "/bin/rm" = false
      ∧ isCommandAllowed "/usr/bin/shutdown" = false :=
  ⟨by decide, by decide,
    (c1_deny_list_wins forbiddenCommands allowedCommands "rm" (by decide) (by decide)
      (Or.inl (by decide))).1,
    (c1_deny_list_wins forbiddenCommands allowedCommands "/bin/rm" (by decide) (by decide)
      (Or.inr (Or.inr ⟨Or.inr (by decide), by decide⟩))).1,
    (c1_deny_list_wins forbiddenCommands allowedCommands "/usr/bin/shutdown" (by decide)
      (by decide) (Or.inr (Or.inl ⟨"shutdown", by decide, Or.inl (by decide)⟩))).1⟩

/-- C2. For every command `c`, of any shape, a leading `/usr/bin/` or `/bin/` does
not change the answer of `isCommandAllowed`; `/usr/bin/df` and `/bin/ls` are
allowed as `df` and `ls` are. -/
theorem c2_standard_directory_transparent (c : String) :
    isCommandAllowed ("/usr/bin/" ++ c) = isCommandAllowed c
      ∧ isCommandAllowed ("/bin/" ++ c) = isCommandAllowed c
      ∧ isCommandAllowed "/usr/bin/df" = isCommandAllowed "df"
      ∧ isCommandAllowed "/bin/ls" = isCommandAllowed "ls"
      ∧ isCommandAllowed "df" = true ∧ isCommandAllowed "ls" = true :=
  ⟨gate_usr_bin forbiddenCommands allowedCommands c (by decide) (by decide),
    gate_bin forbiddenCommands allowedCommands c (by decide) (by decide),
    by decide, by decide, by decide, by decide⟩

/-! ## Theorems on the command execution pipeline -/

/-- The handler on a command that passes the gate: one process, the result
message, the completion message, and a nil error. -/
theorem HandleExecuteCommand_allowed (request : ExecuteCommandRequest) (outcome : RunOutcome)
    (h : isCommandAllowed request.Command = true) :
    ∃ dir timeout,
    HandleExecuteCommand request outcome =
      { events :=
          [ Event.spawn request.Command request.Args dir timeout,
            (match outcome.err with
              | some _ =>
                if outcome.deadlineExceeded then
                  Event.send "command_error"
                    (Payload.commandOutput
                      { SessionID := request.SessionID,
                        Content :=
                          "Command timeout after " ++ fmtInt request.Timeout ++ " seconds\n" })
                else
                  Event.send "command_error"
                    (Payload.commandOutput
                      { SessionID := request.SessionID, Content := outcome.output })
              | none =>
                Event.send "command_output"
                  (Payload.commandOutput
                    { SessionID := request.SessionID, Content := outcome.output })),
            Event.send "command_complete"
              (Payload.commandComplete
                { SessionID := request.SessionID,
                  ExitCode :=
                    (match outcome.err with
                      | some (RunError.exitError code) => code
                      | some RunError.other => 1
                      | none => 0) }) ],
        err := none } := by
  unfold HandleExecuteCommand
  simp only [h, Bool.not_true, Bool.false_eq_true, if_false]
  exact ⟨_, _, rfl⟩

/-- C3. For every request whose command the gate rejects, whatever the process
would have done: the handler starts no process, calls `sendMessage` exactly twice,
first `command_error` with the session and the text `Command not whitelisted: `
followed by the command and a newline, then `command_complete` with the session
and exit code 127, and returns a non-nil error. -/
theorem c3_rejected_command (request : ExecuteCommandRequest) (outcome : RunOutcome)
    (h : isCommandAllowed request.Command = false) :
    (HandleExecuteCommand request outcome).events =
        [ Event.send "command_error"
            (Payload.commandOutput
              { SessionID := request.SessionID,
                Content := "Command not whitelisted: " ++ request.Command ++ "\n" }),
          Event.send "command_complete"
            (Payload.commandComplete
              { SessionID := request.SessionID, ExitCode := 127 }) ]
      ∧ spawned (HandleExecuteCommand request outcome).events = []
      ∧ (HandleExecuteCommand request outcome).err ≠ none := by
  unfold HandleExecuteCommand
  simp [h, spawned]

/-- Witness of C3: the request to run `rm -rf /`. -/
theorem c3_rejected_command_witness :
    isCommandAllowed "rm" = false
      ∧ (HandleExecuteCommand ⟨"s-1", "rm", ["-rf", "/"], "/tmp", 5⟩
            ⟨"", none, false⟩).events =
          [ Event.send "command_error"
              (Payload.commandOutput
                { SessionID := "s-1", Content := "Command not whitelisted: rm\n" }),
            Event.send "command_complete"
              (Payload.commandComplete { SessionID := "s-1", ExitCode := 127 }) ] :=
  ⟨by decide,
    (c3_rejected_command ⟨"s-1", "rm", ["-rf", "/"], "/tmp", 5⟩ ⟨"", none, false⟩
      (by decide)).1⟩

/-- Counterexample to C4: `env` passes the gate; when the process it runs exits
with status 127 (what `env` does for a program it cannot find), the
`command_complete` message carries exit code 127. -/
theorem c4_counterexample :
    isCommandAllowed "env" = true
      ∧ sentMessages (HandleExecuteCommand ⟨"s-1", "env", ["no-such-program"], "", 5⟩
            ⟨"env: no-such-program: No such file or directory\n",
              some (RunError.exitError 127), false⟩).events =
          [ ("command_error",
              Payload.commandOutput
                { SessionID := "s-1",
                  Content := "env: no-such-program: No such file or directory\n" }),
            ("command_complete",
              Payload.commandComplete { SessionID := "s-1", ExitCode := 127 }) ] := by
  decide

/-- C4 (amended). For every request whose command passes the gate and every
outcome of the process, exactly one `command_complete` is sent; its exit code is
0 on success, 1 for an error that is not an exit error, and the exit status of the
process for an exit error; so it is 127 exactly when the process itself exited
with status 127. -/
theorem c4_exit_code_127 (request : ExecuteCommandRequest) (outcome : RunOutcome)
    (h : isCommandAllowed request.Command = true) :
    ∃ exitCode : Int,
      (sentMessages (HandleExecuteCommand request outcome).events).filter
          (fun x => x.1 == "command_complete") =
        [ ("command_complete",
            Payload.commandComplete
              { SessionID := request.SessionID, ExitCode := exitCode }) ]
      ∧ (outcome.err = none → exitCode = 0)
      ∧ (outcome.err = some RunError.other → exitCode = 1)
      ∧ (∀ code, outcome.err = some (RunError.exitError code) → exitCode = code)
      ∧ (exitCode = 127 ↔ outcome.err = some (RunError.exitError 127)) := by
  obtain ⟨dir, timeout, e⟩ := HandleExecuteCommand_allowed request outcome h
  rw [e]
  obtain ⟨output, err, deadline⟩ := outcome
  rcases err with _ | code | _ <;> cases deadline <;>
    simp [sentMessages]

/-- Witness of C4 (amended): `df` exiting with status 1. -/
theorem c4_exit_code_127_witness :
    isCommandAllowed "df" = true
      ∧ ∃ exitCode : Int,
        (sentMessages (HandleExecuteCommand ⟨"s-4", "df", ["/nowhere"], "", 0⟩
            ⟨"df: /nowhere: No such file or directory\n", some (RunError.exitError 1),
              false⟩).events).filter (fun x => x.1 == "command_complete") =
          [ ("command_complete",
              Payload.commandComplete { SessionID := "s-4", ExitCode := exitCode }) ]
        ∧ ((some (RunError.exitError 1) : Option RunError) = none → exitCode = 0)
        ∧ (some (RunError.exitError 1) = some RunError.other → exitCode = 1)
        ∧ (∀ code, some (RunError.exitError 1) = some (RunError.exitError code) →
            exitCode = code)
        ∧ (exitCode = 127 ↔ some (RunError.exitError 1) = some (RunError.exitError 127)) :=
  ⟨by decide,
    c4_exit_code_127 ⟨"s-4", "df", ["/nowhere"], "", 0⟩
      ⟨"df: /nowhere: No such file or directory\n", some (RunError.exitError 1), false⟩
      (by decide)⟩

/-- C5. For every request whose command passes the gate and every outcome of the
process, the handler starts that one process, returns nil and sends exactly two
messages with the session of the request: first the result (`command_output` with
the captured output on success, `command_error` otherwise), last
`command_complete`, with exit code 0 on success, the exit code of the process for
an exit error, and 1 for any other failure. -/
theorem c5_allowed_command_messages (request : ExecuteCommandRequest) (outcome : RunOutcome)
    (h : isCommandAllowed request.Command = true) :
    (HandleExecuteCommand request outcome).err = none
      ∧ spawned (HandleExecuteCommand request outcome).events = [request.Command]
      ∧ (outcome.err = none →
          sentMessages (HandleExecuteCommand request outcome).events =
            [ ("command_output",
                Payload.commandOutput
                  { SessionID := request.SessionID, Content := outcome.output }),
              ("command_complete",
                Payload.commandComplete { SessionID := request.SessionID, ExitCode := 0 }) ])
      ∧ (∀ code, outcome.err = some (RunError.exitError code) →
          sentMessages (HandleExecuteCommand request outcome).events =
            [ ("command_error",
                Payload.commandOutput
                  { SessionID := request.SessionID,
                    Content :=
                      if outcome.deadlineExceeded then
                        "Command timeout after " ++ fmtInt request.Timeout ++ " seconds\n"
                      else outcome.output }),
              ("command_complete",
                Payload.commandComplete { SessionID := request.SessionID, ExitCode := code }) ])
      ∧ (outcome.err = some RunError.other →
          sentMessages (HandleExecuteCommand request outcome).events =
            [ ("command_error",
                Payload.commandOutput
                  { SessionID := request.SessionID,
                    Content :=
                      if outcome.deadlineExceeded then
                        "Command timeout after " ++ fmtInt request.Timeout ++ " seconds\n"
                      else outcome.output }),
              ("command_complete",
                Payload.commandComplete { SessionID := request.SessionID, ExitCode := 1 }) ]) := by
  obtain ⟨dir, timeout, e⟩ := HandleExecuteCommand_allowed request outcome h
  rw [e]
  obtain ⟨output, err, deadline⟩ := outcome
  rcases err with _ | code | _ <;> cases deadline <;>
    simp [sentMessages, spawned]

/-- Witness of C5: a successful `uptime`. -/
theorem c5_allowed_command_messages_witness :
    isCommandAllowed "uptime" = true
      ∧ sentMessages (HandleExecuteCommand ⟨"s-5", "uptime", [], "", 0⟩
            ⟨" 10:00:00 up 1 day\n", none, false⟩).events =
          [ ("command_output",
              Payload.commandOutput
                { SessionID := "s-5", Content := " 10:00:00 up 1 day\n" }),
            ("command_complete",
              Payload.commandComplete { SessionID := "s-5", ExitCode := 0 }) ] :=
  ⟨by decide,
    (c5_allowed_command_messages ⟨"s-5", "uptime", [], "", 0⟩
      ⟨" 10:00:00 up 1 day\n", none, false⟩ (by decide)).2.2.1 rfl⟩

/-- Counterexample to C6: `env` passes the gate; the process exits by itself with
status 127 as the deadline passes (the run returns an exit error, the context
reports the deadline exceeded); the handler sends the timeout message and a
`command_complete` with exit code 127. -/
theorem c6_counterexample :
    isCommandAllowed "env" = true
      ∧ sentMessages (HandleExecuteCommand
            ⟨"s-6", "env", ["sh", "-c", "sleep 1; exit 127"], "", 1⟩
            ⟨"", some (RunError.exitError 127), true⟩).events =
          [ ("command_error",
              Payload.commandOutput
                { SessionID := "s-6", Content := "Command timeout after 1 seconds\n" }),
            ("command_complete",
              Payload.commandComplete { SessionID := "s-6", ExitCode := 127 }) ] := by
  decide

/-- C6 (amended). For every request whose command passes the gate and whose run
returns an error while the context reports the deadline exceeded, the handler
sends exactly one `command_error`, with the timeout text (not the captured
output), and then exactly one `command_complete`; its exit code is 1 for an error
that is not an exit error and the exit status of the process for an exit error. As
an exit error never carries status 0, the exit code is not 0; it is 127 exactly
when the process itself exited with status 127. -/
theorem c6_timeout_messages (request : ExecuteCommandRequest) (outcome : RunOutcome)
    (e : RunError)
    (h : isCommandAllowed request.Command = true)
    (herr : outcome.err = some e) (hdeadline : outcome.deadlineExceeded = true)
    (hexit : ∀ code, e = RunError.exitError code → code ≠ 0) :
    ∃ exitCode : Int,
      sentMessages (HandleExecuteCommand request outcome).events =
        [ ("command_error",
            Payload.commandOutput
              { SessionID := request.SessionID,
                Content := "Command timeout after " ++ fmtInt request.Timeout ++ " seconds\n" }),
          ("command_complete",
            Payload.commandComplete
              { SessionID := request.SessionID, ExitCode := exitCode }) ]
      ∧ exitCode ≠ 0
      ∧ (e = RunError.other → exitCode = 1)
      ∧ (∀ code, e = RunError.exitError code → exitCode = code)
      ∧ (exitCode = 127 ↔ e = RunError.exitError 127) := by
  obtain ⟨dir, timeout, eq⟩ := HandleExecuteCommand_allowed request outcome h
  rw [eq]
  obtain ⟨output, err, deadline⟩ := outcome
  simp only at herr hdeadline
  subst herr hdeadline
  cases e with
  | exitError code =>
    refine ⟨code, by simp [sentMessages], hexit code rfl, by simp, by simp, by simp⟩
  | other =>
    refine ⟨1, by simp [sentMessages], by decide, by simp, by simp, by simp⟩

/-- Witness of C6 (amended): `ping` killed at its deadline (exit code -1). -/
theorem c6_timeout_messages_witness :
    isCommandAllowed "ping" = true
      ∧ ∃ exitCode : Int,
        sentMessages (HandleExecuteCommand ⟨"s-6", "ping", ["10.0.0.1"], "", 2⟩
            ⟨"PING 10.0.0.1\n", some (RunError.exitError (-1)), true⟩).events =
          [ ("command_error",
              Payload.commandOutput
                { SessionID := "s-6",
                  Content := "Command timeout after " ++ fmtInt 2 ++ " seconds\n" }),
            ("command_complete",
              Payload.commandComplete { SessionID := "s-6", ExitCode := exitCode }) ]
        ∧ exitCode ≠ 0
        ∧ (RunError.exitError (-1) = RunError.other → exitCode = 1)
        ∧ (∀ code, RunError.exitError (-1) = RunError.exitError code → exitCode = code)
        ∧ (exitCode = 127 ↔ RunError.exitError (-1) = RunError.exitError 127) :=
  ⟨by decide,
    c6_timeout_messages ⟨"s-6", "ping", ["10.0.0.1"], "", 2⟩
      ⟨"PING 10.0.0.1\n", some (RunError.exitError (-1)), true⟩ (RunError.exitError (-1))
      (by decide) rfl rfl (by intro code hc; cases hc; decide)⟩

/-! ## Lemmas on the chunk loop -/

theorem mapM_eq_some_map {α β : Type} (f : α → Option β) (g : α → β) :
    ∀ l : List α, (∀ x ∈ l, f x = some (g x)) → l.mapM f = some (l.map g) := by
  intro l
  induction l with
  | nil => intro _; rfl
  | cons a t ih =>
    intro h
    rw [List.mapM_cons, h a (List.mem_cons_self a t),
      ih (fun x hx => h x (List.mem_cons_of_mem a hx))]
    rfl

/-- The `log_data` message of chunk `chunkNum` when its slice is in range. -/
theorem logChunkMessage_eq (sessionID : String) (lines : List String) (chunkNum : Nat)
    (h : chunkNum < (lines.length + linesPerChunk - 1) / linesPerChunk) :
    logChunkMessage sessionID lines ((lines.length + linesPerChunk - 1) / linesPerChunk)
        chunkNum =
      some (Event.send "log_data"
        (Payload.logData
          { SessionID := sessionID,
            Chunk := joinLines (chunkLinesAt lines chunkNum),
            Progress :=
              ((min (chunkNum * 1000 + 1000) lines.length : Nat) : ℚ) / (lines.length : ℚ) * 100,
            CurrentLine := min (chunkNum * 1000 + 1000) lines.length,
            TotalLines := lines.length,
            ChunkNumber := chunkNum + 1,
            TotalChunks := (lines.length + linesPerChunk - 1) / linesPerChunk })) := by
  unfold linesPerChunk at h
  have hlt : chunkNum * 1000 < lines.length := by omega
  unfold logChunkMessage sliceLines linesPerChunk
  by_cases hc : chunkNum * 1000 + 1000 > lines.length
  · have hmin : min (chunkNum * 1000 + 1000) lines.length = lines.length := by omega
    have hr : chunkNum * 1000 ≤ lines.length ∧ lines.length ≤ lines.length := by omega
    simp only [hc, if_true, hmin, hr, and_self]
    have ht : List.take (lines.length - chunkNum * 1000) (List.drop (chunkNum * 1000) lines)
        = chunkLinesAt lines chunkNum := by
      unfold chunkLinesAt
      rw [List.take_of_length_le (by simp), List.take_of_length_le (by simp; omega)]
    rw [ht]
  · have hmin : min (chunkNum * 1000 + 1000) lines.length = chunkNum * 1000 + 1000 := by omega
    have hr : chunkNum * 1000 ≤ chunkNum * 1000 + 1000
        ∧ chunkNum * 1000 + 1000 ≤ lines.length := by omega
    simp only [hc, if_false, hmin, hr, and_self, if_true]
    have ht : List.take (chunkNum * 1000 + 1000 - chunkNum * 1000)
        (List.drop (chunkNum * 1000) lines) = chunkLinesAt lines chunkNum := by
      unfold chunkLinesAt
      rw [Nat.add_sub_cancel_left]
    rw [ht]

/-- The handler on a readable file: it returns without a panic, having sent one
`log_data` message per chunk and then one `log_complete`. -/
theorem HandleReadLogCommand_ok (mateID : String) (readFile : String → Except String String)
    (nowMillis : Int) (request : ReadLogRequest) (content : String)
    (h : readFile request.Path = Except.ok content) :
    HandleReadLogCommand mateID readFile nowMillis request =
      some
        { events :=
            (List.range (((selectLines request.Mode (splitLines content)).length + 999) / 1000)).map
              (fun chunkNum =>
                Event.send "log_data"
                  (Payload.logData
                    { SessionID := logSessionID mateID nowMillis request,
                      Chunk := joinLines
                        (chunkLinesAt (selectLines request.Mode (splitLines content)) chunkNum),
                      Progress :=
                        ((min (chunkNum * 1000 + 1000)
                          (selectLines request.Mode (splitLines content)).length : Nat) : ℚ)
                          / ((selectLines request.Mode (splitLines content)).length : ℚ) * 100,
                      CurrentLine := min (chunkNum * 1000 + 1000)
                        (selectLines request.Mode (splitLines content)).length,
                      TotalLines := (selectLines request.Mode (splitLines content)).length,
                      ChunkNumber := chunkNum + 1,
                      TotalChunks :=
                        ((selectLines request.Mode (splitLines content)).length + 999) / 1000 }))
            ++ [ Event.send "log_complete"
                  (Payload.logComplete
                    { SessionID := logSessionID mateID nowMillis request,
                      TotalSize := (selectLines request.Mode (splitLines content)).length }) ],
          err := none } := by
  unfold HandleReadLogCommand
  rw [h]
  simp only []
  rw [mapM_eq_some_map _ _ _ (fun k hk =>
    logChunkMessage_eq _ (selectLines request.Mode (splitLines content)) k
      (List.mem_range.mp hk))]
  rfl


/-! ## Lemmas on lines -/

theorem splitOnP_no_sep {α : Type} (p : α → Bool) :
    ∀ xs : List α, ∀ l ∈ xs.splitOnP p, ∀ x ∈ l, p x = false := by
  intro xs
  induction xs with
  | nil =>
    intro l hl x hx
    simp at hl
    subst hl
    cases hx
  | cons a t ih =>
    intro l hl x hx
    rw [List.splitOnP_cons] at hl
    by_cases hp : p a = true
    · rw [if_pos hp] at hl
      rcases List.mem_cons.mp hl with rfl | hl
      · cases hx
      · exact ih l hl x hx
    · rw [if_neg hp] at hl
      cases hs : List.splitOnP p t with
      | nil => exact absurd hs (List.splitOnP_ne_nil p t)
      | cons hd tl =>
        rw [hs] at hl ih
        simp only [List.modifyHead_cons] at hl
        rcases List.mem_cons.mp hl with rfl | hl
        · rcases List.mem_cons.mp hx with rfl | hx
          · simpa using hp
          · exact ih hd (List.mem_cons_self _ _) x hx
        · exact ih l (List.mem_cons_of_mem _ hl) x hx

/-- A line without a newline in it. -/
theorem splitLines_no_newline (content line : String) (h : line ∈ splitLines content) :
    '\n' ∉ line.data := by
  unfold splitLines at h
  obtain ⟨l, hl, rfl⟩ := List.mem_map.mp h
  intro hmem
  have := splitOnP_no_sep (fun c => c == '\n') content.data l hl '\n' hmem
  simp at this

theorem splitLines_ne_nil (content : String) : splitLines content ≠ [] := by
  unfold splitLines
  intro h
  exact List.splitOnP_ne_nil _ content.data (List.map_eq_nil_iff.mp h)

theorem filterErrorsOnlyList_ne_nil (lines : List String) : filterErrorsOnlyList lines ≠ [] := by
  unfold filterErrorsOnlyList
  simp only []
  split
  · simp
  · next h => exact fun e => h (by rw [e]; rfl)

theorem filterRelevantLinesList_ne_nil (lines : List String) (h : lines ≠ []) :
    filterRelevantLinesList lines ≠ [] := by
  have hpos : 0 < lines.length := List.length_pos.mpr h
  unfold filterRelevantLinesList
  simp only []
  split
  · intro e
    have := congrArg List.length e
    simp only [List.length_drop, List.length_nil] at this
    split at this <;> omega
  · next h => exact fun e => h (by rw [e]; rfl)

theorem selectLines_ne_nil (mode content : String) :
    selectLines mode (splitLines content) ≠ [] := by
  unfold selectLines
  split
  · exact filterRelevantLinesList_ne_nil _ (splitLines_ne_nil content)
  · split
    · exact filterErrorsOnlyList_ne_nil _
    · exact splitLines_ne_nil content

theorem selectLines_no_newline (mode content line : String)
    (h : line ∈ selectLines mode (splitLines content)) : '\n' ∉ line.data := by
  unfold selectLines at h
  split at h
  · unfold filterRelevantLinesList at h
    simp only [] at h
    split at h
    · exact splitLines_no_newline content line (List.mem_of_mem_drop h)
    · exact splitLines_no_newline content line (List.mem_filter.mp h).1
  · split at h
    · unfold filterErrorsOnlyList at h
      simp only [] at h
      split at h
      · rw [List.mem_singleton.mp h]
        decide
      · exact splitLines_no_newline content line (List.mem_filter.mp h).1
    · exact splitLines_no_newline content line h

/-- Splitting the join of a non-empty list of newline-free lines gives the lines. -/
theorem splitLines_joinLines (ls : List String) (hne : ls ≠ [])
    (hnl : ∀ line ∈ ls, '\n' ∉ line.data) : splitLines (joinLines ls) = ls := by
  unfold splitLines joinLines
  simp only []
  rw [List.splitOn_intercalate]
  · rw [List.map_map]
    have : (String.mk ∘ String.data) = id := by
      funext s
      rfl
    rw [this, List.map_id]
  · intro l hl
    obtain ⟨s, hs, rfl⟩ := List.mem_map.mp hl
    exact hnl s hs
  · intro h
    exact hne (List.map_eq_nil_iff.mp h)

/-! ## Lemmas on chunks -/

theorem flatMap_chunkLinesAt (lines : List String) :
    ∀ m : Nat, (List.range m).flatMap (chunkLinesAt lines) = lines.take (m * 1000) := by
  intro m
  induction m with
  | zero => simp
  | succ k ih =>
    rw [List.range_succ, List.flatMap_append, ih]
    simp only [List.flatMap_cons, List.flatMap_nil, List.append_nil]
    unfold chunkLinesAt
    rw [show (k + 1) * 1000 = k * 1000 + 1000 by ring, List.take_add]

theorem flatMap_chunkLinesAt_all (lines : List String) :
    (List.range ((lines.length + 999) / 1000)).flatMap (chunkLinesAt lines) = lines := by
  rw [flatMap_chunkLinesAt]
  exact List.take_of_length_le (by omega)

theorem chunkLinesAt_ne_nil (lines : List String) (k : Nat)
    (h : k < (lines.length + 999) / 1000) : chunkLinesAt lines k ≠ [] := by
  intro e
  have := congrArg List.length e
  unfold chunkLinesAt at this
  simp only [List.length_take, List.length_drop, List.length_nil] at this
  omega

theorem mem_chunkLinesAt (lines : List String) (k : Nat) (line : String)
    (h : line ∈ chunkLinesAt lines k) : line ∈ lines :=
  List.mem_of_mem_drop (List.mem_of_mem_take h)

theorem logDataOf_map_append (g : Nat → LogDataMessage) (rest : List Event) :
    ∀ l : List Nat,
      logDataOf (l.map (fun k => Event.send "log_data" (Payload.logData (g k))) ++ rest)
        = l.map g ++ logDataOf rest := by
  intro l
  induction l with
  | nil => rfl
  | cons a t ih =>
    simp only [List.map_cons, List.cons_append, logDataOf]
    exact congrArg (List.cons (g a)) ih


theorem intercalate_cons_cons {α : Type} (sep a b : List α) (t : List (List α)) :
    sep.intercalate (a :: b :: t) = a ++ sep ++ sep.intercalate (b :: t) := by
  simp [List.intercalate, List.intersperse]

theorem intercalate_append_ne_nil {α : Type} (sep : List α) :
    ∀ A B : List (List α), A ≠ [] → B ≠ [] →
      sep.intercalate (A ++ B) = sep.intercalate A ++ sep ++ sep.intercalate B := by
  intro A
  induction A with
  | nil => intro B hA; exact absurd rfl hA
  | cons a t ih =>
    intro B _ hB
    cases t with
    | nil =>
      cases B with
      | nil => exact absurd rfl hB
      | cons b B' =>
        rw [List.singleton_append, intercalate_cons_cons]
        simp [List.intercalate, List.intersperse]
    | cons a' t' =>
      rw [List.cons_append, List.cons_append, intercalate_cons_cons, ← List.cons_append,
        ih B (List.cons_ne_nil _ _) hB, intercalate_cons_cons]
      simp only [List.append_assoc]

theorem intercalate_flatMap_splitOn :
    ∀ cs : List (List Char),
      ['\n'].intercalate (cs.flatMap (fun c => c.splitOn '\n')) = ['\n'].intercalate cs := by
  intro cs
  induction cs with
  | nil => rfl
  | cons c t ih =>
    rw [List.flatMap_cons]
    cases t with
    | nil =>
      simp only [List.flatMap_nil, List.append_nil]
      rw [List.intercalate_splitOn]
      simp [List.intercalate, List.intersperse]
    | cons c' t' =>
      have hne : (c' :: t').flatMap (fun c => c.splitOn '\n') ≠ [] := by
        rw [List.flatMap_cons]
        intro e
        exact List.splitOnP_ne_nil _ c' (List.append_eq_nil.mp e).1
      have hc : c.splitOn '\n' ≠ [] := List.splitOnP_ne_nil _ c
      rw [intercalate_append_ne_nil ['\n'] (c.splitOn '\n') _ hc hne, ih,
        List.intercalate_splitOn, intercalate_cons_cons]

theorem joinLines_flatMap_splitLines (ts : List String) :
    joinLines (ts.flatMap splitLines) = joinLines ts := by
  unfold joinLines
  congr 1
  have e : (ts.flatMap splitLines).map String.data
      = (ts.map String.data).flatMap (fun c => c.splitOn '\n') := by
    induction ts with
    | nil => rfl
    | cons t r ih =>
      simp only [List.flatMap_cons, List.map_append, List.map_cons, ih]
      congr 1
      unfold splitLines
      rw [List.map_map]
      have : (String.data ∘ String.mk) = id := by
        funext s
        rfl
      rw [this, List.map_id]
  rw [e, intercalate_flatMap_splitOn]

theorem totalChunks_eq_ceil (n : Nat) : (n + 999) / 1000 = ⌈(n : ℚ) / 1000⌉₊ := by
  apply le_antisymm
  · rcases Nat.eq_zero_or_pos ((n + 999) / 1000) with h0 | hpos
    · rw [h0]; exact Nat.zero_le _
    · have : (n + 999) / 1000 - 1 < ⌈(n : ℚ) / 1000⌉₊ := by
        rw [Nat.lt_ceil, lt_div_iff₀ (by norm_num)]
        have hlt : ((n + 999) / 1000 - 1) * 1000 < n := by omega
        exact_mod_cast hlt
      omega
  · rw [Nat.ceil_le, div_le_iff₀ (by norm_num)]
    have hle : n ≤ (n + 999) / 1000 * 1000 := by omega
    exact_mod_cast hle


theorem logCompleteOf_map_append (rest : List Event) :
    ∀ l : List LogDataMessage,
      logCompleteOf (l.map (fun m => Event.send "log_data" (Payload.logData m)) ++ rest)
        = logCompleteOf rest := by
  intro l
  induction l with
  | nil => rfl
  | cons a t ih =>
    simp only [List.map_cons, List.cons_append, logCompleteOf]
    exact ih

/-- The `log_data` messages of a completed read. -/
theorem logDataOf_HandleReadLogCommand (mateID : String)
    (readFile : String → Except String String) (nowMillis : Int) (request : ReadLogRequest)
    (content : String) (h : readFile request.Path = Except.ok content) :
    ∃ r, HandleReadLogCommand mateID readFile nowMillis request = some r
      ∧ r.err = none
      ∧ r.events =
          (logDataOf r.events).map (fun m => Event.send "log_data" (Payload.logData m))
            ++ [ Event.send "log_complete"
                  (Payload.logComplete
                    { SessionID := logSessionID mateID nowMillis request,
                      TotalSize := (selectLines request.Mode (splitLines content)).length }) ]
      ∧ logDataOf r.events =
          (List.range (((selectLines request.Mode (splitLines content)).length + 999) / 1000)).map
            (fun chunkNum =>
              { SessionID := logSessionID mateID nowMillis request,
                Chunk := joinLines
                  (chunkLinesAt (selectLines request.Mode (splitLines content)) chunkNum),
                Progress :=
                  ((min (chunkNum * 1000 + 1000)
                    (selectLines request.Mode (splitLines content)).length : Nat) : ℚ)
                    / ((selectLines request.Mode (splitLines content)).length : ℚ) * 100,
                CurrentLine := min (chunkNum * 1000 + 1000)
                  (selectLines request.Mode (splitLines content)).length,
                TotalLines := (selectLines request.Mode (splitLines content)).length,
                ChunkNumber := chunkNum + 1,
                TotalChunks :=
                  ((selectLines request.Mode (splitLines content)).length + 999) / 1000 }) := by
  refine ⟨_, HandleReadLogCommand_ok mateID readFile nowMillis request content h, rfl, ?_, ?_⟩
  · simp only []
    rw [logDataOf_map_append]
    simp [logDataOf]
  · simp only []
    rw [logDataOf_map_append]
    simp [logDataOf]

/-- C7. For every readable file and every mode the handler returns, and the chunk
texts of its `log_data` messages, each split on newline and the pieces
concatenated in the order sent, are exactly the filtered lines; equivalently the
chunk texts joined with newline are the filtered lines joined with newline. -/
theorem c7_chunking_lossless (mateID : String) (readFile : String → Except String String)
    (nowMillis : Int) (request : ReadLogRequest) (content : String)
    (h : readFile request.Path = Except.ok content) :
    ∃ r, HandleReadLogCommand mateID readFile nowMillis request = some r
      ∧ ((logDataOf r.events).map (fun m => m.Chunk)).flatMap splitLines
          = selectLines request.Mode (splitLines content)
      ∧ joinLines ((logDataOf r.events).map (fun m => m.Chunk))
          = joinLines (selectLines request.Mode (splitLines content)) := by
  obtain ⟨r, hr, -, -, hd⟩ :=
    logDataOf_HandleReadLogCommand mateID readFile nowMillis request content h
  have key : ((logDataOf r.events).map (fun m => m.Chunk)).flatMap splitLines
      = selectLines request.Mode (splitLines content) := by
    rw [hd, List.map_map]
    have step : ∀ l : List Nat,
        (∀ k ∈ l, k < ((selectLines request.Mode (splitLines content)).length + 999) / 1000) →
        (l.map (fun k =>
            joinLines (chunkLinesAt (selectLines request.Mode (splitLines content)) k))).flatMap
          splitLines
          = l.flatMap (chunkLinesAt (selectLines request.Mode (splitLines content))) := by
      intro l
      induction l with
      | nil => intro _; rfl
      | cons a t ih =>
        intro hl
        simp only [List.map_cons, List.flatMap_cons]
        rw [ih (fun k hk => hl k (List.mem_cons_of_mem a hk)),
          splitLines_joinLines _
            (chunkLinesAt_ne_nil _ a (hl a (List.mem_cons_self a t)))
            (fun line hline =>
              selectLines_no_newline request.Mode content line (mem_chunkLinesAt _ a line hline))]
    exact (step _ (fun k hk => List.mem_range.mp hk)).trans (flatMap_chunkLinesAt_all _)
  refine ⟨r, hr, key, ?_⟩
  rw [← key, joinLines_flatMap_splitLines]

/-- Witness of C7: a file of two lines and a trailing newline, read in full. -/
theorem c7_chunking_lossless_witness :
    selectLines "full" (splitLines "a\nb\n") = ["a", "b", ""]
      ∧ ∃ r, HandleReadLogCommand "mate-1" (fun _ => Except.ok "a\nb\n") 0
            ⟨"s-7", "/var/log/syslog", "full", 0⟩ = some r
        ∧ ((logDataOf r.events).map (fun m => m.Chunk)).flatMap splitLines
            = selectLines "full" (splitLines "a\nb\n")
        ∧ joinLines ((logDataOf r.events).map (fun m => m.Chunk))
            = joinLines (selectLines "full" (splitLines "a\nb\n")) :=
  ⟨by decide,
    c7_chunking_lossless "mate-1" (fun _ => Except.ok "a\nb\n") 0
      ⟨"s-7", "/var/log/syslog", "full", 0⟩ "a\nb\n" rfl⟩

/-- C8. For every readable file and every mode, with `n` the number of filtered
lines: the handler returns nil after sending exactly `ceil (n / 1000)` `log_data`
messages, each carrying that number as `TotalChunks`; the last of them has
`CurrentLine = n`; after them comes exactly one `log_complete`, with
`TotalSize = n`, and nothing else. -/
theorem c8_total_chunks (mateID : String) (readFile : String → Except String String)
    (nowMillis : Int) (request : ReadLogRequest) (content : String)
    (h : readFile request.Path = Except.ok content) :
    ∃ r, HandleReadLogCommand mateID readFile nowMillis request = some r
      ∧ r.err = none
      ∧ (logDataOf r.events).length
          = ⌈((selectLines request.Mode (splitLines content)).length : ℚ) / 1000⌉₊
      ∧ (∀ m ∈ logDataOf r.events,
          m.TotalChunks = ⌈((selectLines request.Mode (splitLines content)).length : ℚ) / 1000⌉₊)
      ∧ (∃ final, (logDataOf r.events).getLast? = some final
          ∧ final.CurrentLine = (selectLines request.Mode (splitLines content)).length)
      ∧ r.events =
          (logDataOf r.events).map (fun m => Event.send "log_data" (Payload.logData m))
            ++ [ Event.send "log_complete"
                  (Payload.logComplete
                    { SessionID := logSessionID mateID nowMillis request,
                      TotalSize := (selectLines request.Mode (splitLines content)).length }) ]
      ∧ logCompleteOf r.events =
          [ { SessionID := logSessionID mateID nowMillis request,
              TotalSize := (selectLines request.Mode (splitLines content)).length } ] := by
  obtain ⟨r, hr, herr, hev, hd⟩ :=
    logDataOf_HandleReadLogCommand mateID readFile nowMillis request content h
  have hpos : 0 < (selectLines request.Mode (splitLines content)).length :=
    List.length_pos.mpr (selectLines_ne_nil request.Mode content)
  refine ⟨r, hr, herr, ?_, ?_, ?_, hev, ?_⟩
  · rw [hd, List.length_map, List.length_range, totalChunks_eq_ceil]
  · intro m hm
    rw [hd] at hm
    obtain ⟨k, -, rfl⟩ := List.mem_map.mp hm
    exact totalChunks_eq_ceil _
  · rw [hd]
    obtain ⟨t, ht⟩ : ∃ t, ((selectLines request.Mode (splitLines content)).length + 999) / 1000
        = t + 1 := ⟨((selectLines request.Mode (splitLines content)).length + 999) / 1000 - 1,
          by omega⟩
    rw [ht, List.range_succ, List.map_append, List.map_singleton, List.getLast?_concat]
    refine ⟨_, rfl, ?_⟩
    simp only []
    omega
  · rw [hev, logCompleteOf_map_append]
    simp [logCompleteOf]


/-- Witness of C8: a file of two lines and a trailing newline, read in smart mode. -/
theorem c8_total_chunks_witness :
    selectLines "smart" (splitLines "a\nb\n") = ["a", "b", ""]
      ∧ ∃ r, HandleReadLogCommand "mate-1" (fun _ => Except.ok "a\nb\n") 0
            ⟨"s-8", "/var/log/syslog", "smart", 0⟩ = some r
        ∧ r.err = none
        ∧ (logDataOf r.events).length
            = ⌈((selectLines "smart" (splitLines "a\nb\n")).length : ℚ) / 1000⌉₊
        ∧ (∀ m ∈ logDataOf r.events,
            m.TotalChunks = ⌈((selectLines "smart" (splitLines "a\nb\n")).length : ℚ) / 1000⌉₊)
        ∧ (∃ final, (logDataOf r.events).getLast? = some final
            ∧ final.CurrentLine = (selectLines "smart" (splitLines "a\nb\n")).length)
        ∧ r.events =
            (logDataOf r.events).map (fun m => Event.send "log_data" (Payload.logData m))
              ++ [ Event.send "log_complete"
                    (Payload.logComplete
                      { SessionID := "s-8",
                        TotalSize := (selectLines "smart" (splitLines "a\nb\n")).length }) ]
        ∧ logCompleteOf r.events =
            [ { SessionID := "s-8",
                TotalSize := (selectLines "smart" (splitLines "a\nb\n")).length } ] :=
  ⟨by decide,
    c8_total_chunks "mate-1" (fun _ => Except.ok "a\nb\n") 0
      ⟨"s-8", "/var/log/syslog", "smart", 0⟩ "a\nb\n" rfl⟩

/-- C9. For every readable file none of whose lines contains a keyword of the
errors-only mode, the handler in mode `errors-only` sends exactly one `log_data`
message (chunk 1 of 1, one line in total) whose text is
`No errors found in log file.`, then one `log_complete` with `TotalSize = 1`, and
returns nil. -/
theorem c9_errors_only_no_match (mateID : String) (readFile : String → Except String String)
    (nowMillis : Int) (request : ReadLogRequest) (content : String)
    (h : readFile request.Path = Except.ok content)
    (hmode : request.Mode = "errors-only")
    (hno : ∀ line ∈ splitLines content, matchesAny errorKeywords line = false) :
    HandleReadLogCommand mateID readFile nowMillis request =
      some
        { events :=
            [ Event.send "log_data"
                (Payload.logData
                  { SessionID := logSessionID mateID nowMillis request,
                    Chunk := "No errors found in log file.",
                    Progress := 100,
                    CurrentLine := 1,
                    TotalLines := 1,
                    ChunkNumber := 1,
                    TotalChunks := 1 }),
              Event.send "log_complete"
                (Payload.logComplete
                  { SessionID := logSessionID mateID nowMillis request, TotalSize := 1 }) ],
          err := none } := by
  have hsel : selectLines request.Mode (splitLines content)
      = ["No errors found in log file."] := by
    rw [hmode]
    unfold selectLines
    rw [if_neg (by decide), if_pos rfl]
    unfold filterErrorsOnlyList
    have : (splitLines content).filter (matchesAny errorKeywords) = [] := by
      rw [List.filter_eq_nil_iff]
      intro line hline
      rw [hno line hline]
      exact Bool.false_ne_true
    simp only [this, List.length_nil, if_true]
  rw [HandleReadLogCommand_ok mateID readFile nowMillis request content h, hsel]
  have hj : joinLines (chunkLinesAt ["No errors found in log file."] 0)
      = "No errors found in log file." := by decide
  simp [List.range_succ, hj]

/-- Witness of C9: a log of two clean lines and a trailing newline. -/
theorem c9_errors_only_no_match_witness :
    (∀ line ∈ splitLines "boot ok\nall services started\n",
        matchesAny errorKeywords line = false)
      ∧ HandleReadLogCommand "mate-1"
          (fun _ => Except.ok "boot ok\nall services started\n") 0
          ⟨"s-9", "/var/log/syslog", "errors-only", 0⟩ =
        some
          { events :=
              [ Event.send "log_data"
                  (Payload.logData
                    { SessionID := "s-9",
                      Chunk := "No errors found in log file.",
                      Progress := 100,
                      CurrentLine := 1,
                      TotalLines := 1,
                      ChunkNumber := 1,
                      TotalChunks := 1 }),
                Event.send "log_complete"
                  (Payload.logComplete { SessionID := "s-9", TotalSize := 1 }) ],
            err := none } :=
  ⟨by decide,
    c9_errors_only_no_match "mate-1" (fun _ => Except.ok "boot ok\nall services started\n") 0
      ⟨"s-9", "/var/log/syslog", "errors-only", 0⟩ "boot ok\nall services started\n" rfl rfl
      (by decide)⟩

/-- C10. For every list of lines none of which contains a keyword of the smart
mode, `filterRelevantLinesList` returns the last `min 50 n` lines of the list in
their order: the list without its first `n - min 50 n` lines, a suffix of length
`min 50 n`, and the whole list when it has at most 50 lines. -/
theorem c10_smart_fallback (lines : List String)
    (hno : ∀ line ∈ lines, matchesAny smartKeywords line = false) :
    filterRelevantLinesList lines = lines.drop (lines.length - min 50 lines.length)
      ∧ (filterRelevantLinesList lines).length = min 50 lines.length
      ∧ filterRelevantLinesList lines <:+ lines
      ∧ (lines.length ≤ 50 → filterRelevantLinesList lines = lines) := by
  have hf : lines.filter (matchesAny smartKeywords) = [] := by
    rw [List.filter_eq_nil_iff]
    intro line hline
    rw [hno line hline]
    exact Bool.false_ne_true
  have e : filterRelevantLinesList lines = lines.drop (lines.length - min 50 lines.length) := by
    unfold filterRelevantLinesList
    simp only [hf, List.length_nil, if_true]
    congr 1
    split <;> omega
  refine ⟨e, ?_, ?_, ?_⟩
  · rw [e, List.length_drop]
    omega
  · rw [e]
    exact List.drop_suffix _ _
  · intro hle
    rw [e, show lines.length - min 50 lines.length = 0 by omega, List.drop_zero]

/-- Witness of C10: 52 lines without a keyword; the first two are left out. -/
theorem c10_smart_fallback_witness :
    (∀ line ∈ List.replicate 2 "old" ++ List.replicate 50 "new",
        matchesAny smartKeywords line = false)
      ∧ filterRelevantLinesList (List.replicate 2 "old" ++ List.replicate 50 "new")
          = List.replicate 50 "new" :=
  ⟨by decide,
    (c10_smart_fallback (List.replicate 2 "old" ++ List.replicate 50 "new") (by decide)).1⟩

/-! ## Theorems on unreadable files and on unfiltered reads -/

/-- C11. When the file cannot be read, whatever the mode and the session of the
request, the handler returns a non-nil error and calls `sendMessage` zero times:
no `log_data` and no `log_complete` is sent. -/
theorem c11_unreadable_file (mateID : String) (readFile : String → Except String String)
    (nowMillis : Int) (request : ReadLogRequest) (cause : String)
    (h : readFile request.Path = Except.error cause) :
    ∃ r, HandleReadLogCommand mateID readFile nowMillis request = some r
      ∧ r.err ≠ none
      ∧ r.events = []
      ∧ sentMessages r.events = []
      ∧ logDataOf r.events = []
      ∧ logCompleteOf r.events = [] := by
  refine ⟨{ events := [], err := some (GoError.readFailed cause) }, ?_, ?_, rfl, rfl, rfl, rfl⟩
  · unfold HandleReadLogCommand
    rw [h]
  · simp

/-- Witness of C11: a missing file, asked for in errors-only mode. -/
theorem c11_unreadable_file_witness :
    ∃ r, HandleReadLogCommand "mate-1" (fun _ => Except.error "no such file") 0
          ⟨"s-11", "/var/log/missing", "errors-only", 0⟩ = some r
      ∧ r.err ≠ none
      ∧ r.events = []
      ∧ sentMessages r.events = []
      ∧ logDataOf r.events = []
      ∧ logCompleteOf r.events = [] :=
  c11_unreadable_file "mate-1" (fun _ => Except.error "no such file") 0
    ⟨"s-11", "/var/log/missing", "errors-only", 0⟩ "no such file" rfl

theorem splitOnP_length {α : Type} (p : α → Bool) :
    ∀ xs : List α, (xs.splitOnP p).length = (xs.filter p).length + 1 := by
  intro xs
  induction xs with
  | nil => rfl
  | cons a t ih =>
    rw [List.splitOnP_cons]
    by_cases hp : p a = true
    · rw [if_pos hp, List.filter_cons_of_pos hp, List.length_cons, List.length_cons, ih]
    · rw [if_neg hp, List.filter_cons_of_neg hp, List.length_modifyHead, ih]

/-- The number of lines of a content: one more than its newlines. -/
theorem splitLines_length (content : String) :
    (splitLines content).length = content.data.count '\n' + 1 := by
  unfold splitLines
  rw [List.length_map]
  show (List.splitOnP (fun c => c == '\n') content.data).length = _
  rw [splitOnP_length, List.count, List.countP_eq_length_filter]

theorem joinLines_splitLines (content : String) : joinLines (splitLines content) = content := by
  unfold joinLines splitLines
  apply String.ext
  rw [List.map_map]
  have : (String.data ∘ String.mk) = id := by
    funext s
    rfl
  rw [this, List.map_id]
  exact List.intercalate_splitOn _ _

/-- The chunk texts of a list of newline-free lines, split again, are the lines. -/
theorem chunkTexts_flatMap_splitLines (lines : List String)
    (hnl : ∀ line ∈ lines, '\n' ∉ line.data) :
    ((List.range ((lines.length + 999) / 1000)).map
        (fun k => joinLines (chunkLinesAt lines k))).flatMap splitLines = lines := by
  have step : ∀ l : List Nat, (∀ k ∈ l, k < (lines.length + 999) / 1000) →
      (l.map (fun k => joinLines (chunkLinesAt lines k))).flatMap splitLines
        = l.flatMap (chunkLinesAt lines) := by
    intro l
    induction l with
    | nil => intro _; rfl
    | cons a t ih =>
      intro hl
      simp only [List.map_cons, List.flatMap_cons]
      rw [ih (fun k hk => hl k (List.mem_cons_of_mem a hk)),
        splitLines_joinLines _ (chunkLinesAt_ne_nil _ a (hl a (List.mem_cons_self a t)))
          (fun line hline => hnl line (mem_chunkLinesAt _ a line hline))]
  exact (step _ (fun k hk => List.mem_range.mp hk)).trans (flatMap_chunkLinesAt_all _)

/-- C12. For every readable file and every mode other than `smart` and
`errors-only`, nothing is filtered: the lines streamed are the literal split of
the content on newline, one more than the content has newlines (every message
carries that count as `TotalLines`), the chunk texts split again give those
lines, and the chunk texts joined with newline are the content of the file. -/
theorem c12_unfiltered_modes (mateID : String) (readFile : String → Except String String)
    (nowMillis : Int) (request : ReadLogRequest) (content : String)
    (h : readFile request.Path = Except.ok content)
    (hsmart : request.Mode ≠ "smart") (herrors : request.Mode ≠ "errors-only") :
    selectLines request.Mode (splitLines content) = splitLines content
      ∧ (splitLines content).length = content.data.count '\n' + 1
      ∧ ∃ r, HandleReadLogCommand mateID readFile nowMillis request = some r
        ∧ r.err = none
        ∧ (∀ m ∈ logDataOf r.events, m.TotalLines = content.data.count '\n' + 1)
        ∧ ((logDataOf r.events).map (fun m => m.Chunk)).flatMap splitLines = splitLines content
        ∧ joinLines ((logDataOf r.events).map (fun m => m.Chunk)) = content
        ∧ logCompleteOf r.events =
            [ { SessionID := logSessionID mateID nowMillis request,
                TotalSize := content.data.count '\n' + 1 } ] := by
  have hsel : selectLines request.Mode (splitLines content) = splitLines content := by
    unfold selectLines
    rw [if_neg hsmart, if_neg herrors]
  obtain ⟨r, hr, herr, hev, hd⟩ :=
    logDataOf_HandleReadLogCommand mateID readFile nowMillis request content h
  rw [hsel] at hd hev
  have key : ((logDataOf r.events).map (fun m => m.Chunk)).flatMap splitLines
      = splitLines content := by
    rw [hd, List.map_map]
    exact chunkTexts_flatMap_splitLines (splitLines content)
      (fun line hline => splitLines_no_newline content line hline)
  refine ⟨hsel, splitLines_length content, r, hr, herr, ?_, key, ?_, ?_⟩
  · intro m hm
    rw [hd] at hm
    obtain ⟨k, -, rfl⟩ := List.mem_map.mp hm
    exact splitLines_length content
  · have := joinLines_flatMap_splitLines ((logDataOf r.events).map (fun m => m.Chunk))
    rw [key, joinLines_splitLines] at this
    exact this.symm
  · rw [hev, logCompleteOf_map_append, splitLines_length]
    simp [logCompleteOf]

/-- Witness of C12: a file of two lines and a trailing newline, read with an
unrecognized mode. -/
theorem c12_unfiltered_modes_witness :
    splitLines "a\nb\n" = ["a", "b", ""]
      ∧ selectLines "verbose" (splitLines "a\nb\n") = splitLines "a\nb\n"
      ∧ (splitLines "a\nb\n").length = "a\nb\n".data.count '\n' + 1
      ∧ ∃ r, HandleReadLogCommand "mate-1" (fun _ => Except.ok "a\nb\n") 0
            ⟨"s-12", "/var/log/syslog", "verbose", 0⟩ = some r
        ∧ r.err = none
        ∧ (∀ m ∈ logDataOf r.events, m.TotalLines = "a\nb\n".data.count '\n' + 1)
        ∧ ((logDataOf r.events).map (fun m => m.Chunk)).flatMap splitLines
            = splitLines "a\nb\n"
        ∧ joinLines ((logDataOf r.events).map (fun m => m.Chunk)) = "a\nb\n"
        ∧ logCompleteOf r.events =
            [ { SessionID := logSessionID "mate-1" 0 ⟨"s-12", "/var/log/syslog", "verbose", 0⟩,
                TotalSize := "a\nb\n".data.count '\n' + 1 } ] :=
  ⟨by decide,
    c12_unfiltered_modes "mate-1" (fun _ => Except.ok "a\nb\n") 0
      ⟨"s-12", "/var/log/syslog", "verbose", 0⟩ "a\nb\n" rfl (by decide) (by decide)⟩

/-! ## Theorems on the connection lifecycle -/

theorem wrapInt64_of_fits (n : Int) (h0 : -2 ^ 63 ≤ n) (h1 : n < 2 ^ 63) : wrapInt64 n = n := by
  unfold wrapInt64
  norm_num at h0 h1 ⊢
  omega

theorem runSteps_append (maxAttempts : Int) :
    ∀ (xs ys : List RunEvent) (s : RunState),
      runSteps maxAttempts s (xs ++ ys)
        = (runSteps maxAttempts s xs).bind (fun s' => runSteps maxAttempts s' ys) := by
  intro xs
  induction xs with
  | nil => intro ys s; rfl
  | cons e t ih =>
    intro ys s
    simp only [List.cons_append, runSteps]
    cases runStep maxAttempts s e with
    | none => rfl
    | some s' => exact ih ys s'

/-- Failed connects below the budget: `Run` stays at the top of its loop and
counts them. -/
theorem runSteps_failures_below (maxAttempts : Int) (hfit : maxAttempts < 2 ^ 63) :
    ∀ (k : Nat) (c : Int), 0 ≤ c → c + k < maxAttempts →
      runSteps maxAttempts { phase := RunPhase.connecting, attemptCount := c }
          (List.replicate k RunEvent.connectFailed)
        = some { phase := RunPhase.connecting, attemptCount := c + k } := by
  intro k
  induction k with
  | zero => intro c _ _; simp [runSteps]
  | succ n ih =>
    intro c hc hlt
    have hw : wrapInt64 (c + 1) = c + 1 :=
      wrapInt64_of_fits (c + 1) (by norm_num; omega) (by push_cast at hlt; omega)
    have hstep : runStep maxAttempts { phase := RunPhase.connecting, attemptCount := c }
        RunEvent.connectFailed
        = some { phase := RunPhase.connecting, attemptCount := c + 1 } := by
      simp only [runStep, hw]
      rw [if_neg]
      push_cast at hlt
      omega
    rw [List.replicate_succ, runSteps, hstep]
    simp only []
    rw [ih (c + 1) (by omega) (by push_cast at hlt ⊢; omega)]
    congr 2
    push_cast
    ring

/-- The failed connect that uses up the budget takes `Run` to the listener wait. -/
theorem runStep_last_failure (maxAttempts : Int) (hpos : 0 < maxAttempts)
    (hfit : maxAttempts < 2 ^ 63) :
    runStep maxAttempts { phase := RunPhase.connecting, attemptCount := maxAttempts - 1 }
        RunEvent.connectFailed
      = some { phase := RunPhase.listenerAfterMax, attemptCount := maxAttempts } := by
  have hw : wrapInt64 (maxAttempts - 1 + 1) = maxAttempts :=
    (congrArg wrapInt64 (by ring)).trans
      (wrapInt64_of_fits maxAttempts (by norm_num; omega) hfit)
  simp only [runStep, hw]
  rw [if_pos ⟨hpos, le_refl _⟩]

/-- With every connect failing, `Run` reaches the listener wait at the failure
that uses up the budget. -/
theorem runSteps_budget (max : Nat) (hpos : 0 < max) (hfit : (max : Int) < 2 ^ 63) :
    runSteps (max : Int) runStart (List.replicate max RunEvent.connectFailed)
      = some { phase := RunPhase.listenerAfterMax, attemptCount := (max : Int) } := by
  obtain ⟨k, rfl⟩ : ∃ k, max = k + 1 := ⟨max - 1, by omega⟩
  rw [List.replicate_succ', runSteps_append]
  have h := runSteps_failures_below ((k + 1 : Nat) : Int) hfit k 0 (le_refl _)
    (by push_cast; omega)
  unfold runStart
  rw [h]
  simp only [Option.some_bind, runSteps]
  have hl := runStep_last_failure ((k + 1 : Nat) : Int) (by push_cast; omega) hfit
  have e : (0 : Int) + (k : Int) = ((k + 1 : Nat) : Int) - 1 := by push_cast; ring
  rw [e, hl]

/-- Without a budget (`maxAttempts = 0`) a failed connect never leaves the top of
the loop. -/
theorem runSteps_no_budget :
    ∀ (n : Nat) (c : Int), ∃ c',
      runSteps 0 { phase := RunPhase.connecting, attemptCount := c }
          (List.replicate n RunEvent.connectFailed)
        = some { phase := RunPhase.connecting, attemptCount := c' } := by
  intro n
  induction n with
  | zero => intro c; exact ⟨c, rfl⟩
  | succ k ih =>
    intro c
    obtain ⟨c', hc'⟩ := ih (wrapInt64 (c + 1))
    refine ⟨c', ?_⟩
    rw [List.replicate_succ, runSteps]
    have hstep : runStep 0 { phase := RunPhase.connecting, attemptCount := c }
        RunEvent.connectFailed
        = some { phase := RunPhase.connecting, attemptCount := wrapInt64 (c + 1) } := by
      simp [runStep]
    rw [hstep]
    exact hc'

/-- C13. For every budget `max > 0` (a Go `int`), from the start of `Run` and with
every connect failing: after fewer than `max` failures `Run` is still retrying,
with the failures counted; the failure number `max` takes it to the listener
wait; a wakeup there puts it back in its start state (counter 0), so that the
next entry again takes exactly `max` failures. With `max = 0` no number of
failures takes `Run` to the listener wait. -/
theorem c13_reconnect_budget (max : Nat) (hpos : 0 < max) (hfit : (max : Int) < 2 ^ 63) :
    (∀ k, k < max →
        runSteps (max : Int) runStart (List.replicate k RunEvent.connectFailed)
          = some { phase := RunPhase.connecting, attemptCount := (k : Int) })
      ∧ runSteps (max : Int) runStart (List.replicate max RunEvent.connectFailed)
          = some { phase := RunPhase.listenerAfterMax, attemptCount := (max : Int) }
      ∧ runStep (max : Int) { phase := RunPhase.listenerAfterMax, attemptCount := (max : Int) }
          RunEvent.wakeup = some runStart
      ∧ (∀ k, k < max →
          runSteps (max : Int) runStart
              (List.replicate max RunEvent.connectFailed ++ [RunEvent.wakeup]
                ++ List.replicate k RunEvent.connectFailed)
            = some { phase := RunPhase.connecting, attemptCount := (k : Int) })
      ∧ runSteps (max : Int) runStart
            (List.replicate max RunEvent.connectFailed ++ [RunEvent.wakeup]
              ++ List.replicate max RunEvent.connectFailed)
          = some { phase := RunPhase.listenerAfterMax, attemptCount := (max : Int) }
      ∧ (∀ n, ∃ c,
          runSteps 0 runStart (List.replicate n RunEvent.connectFailed)
            = some { phase := RunPhase.connecting, attemptCount := c }) := by
  have below : ∀ k, k < max →
      runSteps (max : Int) runStart (List.replicate k RunEvent.connectFailed)
        = some { phase := RunPhase.connecting, attemptCount := (k : Int) } := by
    intro k hk
    have h := runSteps_failures_below (max : Int) hfit k 0 (le_refl _) (by omega)
    rw [zero_add] at h
    exact h
  have budget := runSteps_budget max hpos hfit
  have again : runSteps (max : Int) runStart
      (List.replicate max RunEvent.connectFailed ++ [RunEvent.wakeup]) = some runStart := by
    rw [runSteps_append, budget]
    rfl
  refine ⟨below, budget, rfl, ?_, ?_, fun n => runSteps_no_budget n 0⟩
  · intro k hk
    rw [runSteps_append, again]
    exact below k hk
  · rw [runSteps_append, again]
    exact budget

/-- Witness of C13: a budget of three attempts. -/
theorem c13_reconnect_budget_witness :
    runSteps 3 runStart [RunEvent.connectFailed, RunEvent.connectFailed]
        = some { phase := RunPhase.connecting, attemptCount := 2 }
      ∧ runSteps 3 runStart
          [RunEvent.connectFailed, RunEvent.connectFailed, RunEvent.connectFailed]
        = some { phase := RunPhase.listenerAfterMax, attemptCount := 3 }
      ∧ runStep 3 { phase := RunPhase.listenerAfterMax, attemptCount := 3 } RunEvent.wakeup
        = some runStart :=
  ⟨(c13_reconnect_budget 3 (by decide) (by decide)).1 2 (by decide),
    (c13_reconnect_budget 3 (by decide) (by decide)).2.1,
    (c13_reconnect_budget 3 (by decide) (by decide)).2.2.1⟩

/-- C14 on the code: with a budget of three attempts, three failed connects take
`Run` to the listener wait of lines 477-484; that `select` has a case for the
wakeup and one for the stop and none for a timer, so five minutes passing is not
an event it can take, while the `select` after a connection loss (lines 510-517)
has the timer and retries. -/
theorem c14_listener_after_budget_has_no_timer :
    runSteps 3 runStart
        [RunEvent.connectFailed, RunEvent.connectFailed, RunEvent.connectFailed]
        = some { phase := RunPhase.listenerAfterMax, attemptCount := 3 }
      ∧ runStep 3 { phase := RunPhase.listenerAfterMax, attemptCount := 3 } RunEvent.timeout
        = none
      ∧ runStep 3 { phase := RunPhase.listenerAfterMax, attemptCount := 3 } RunEvent.wakeup
        = some { phase := RunPhase.connecting, attemptCount := 0 }
      ∧ runStep 3 { phase := RunPhase.listenerAfterMax, attemptCount := 3 } RunEvent.done
        = some { phase := RunPhase.returned, attemptCount := 3 }
      ∧ runStep 3 { phase := RunPhase.listenerAfterLoss, attemptCount := 0 } RunEvent.timeout
        = some { phase := RunPhase.connecting, attemptCount := 0 }
      ∧ runStep 3 { phase := RunPhase.listenerAfterLoss, attemptCount := 0 } RunEvent.wakeup
        = some { phase := RunPhase.connecting, attemptCount := 0 }
      ∧ runStep 3 { phase := RunPhase.listenerAfterLoss, attemptCount := 0 } RunEvent.done
        = some { phase := RunPhase.returned, attemptCount := 0 } := by
  decide

/-! ## Theorems on what the gate accepts -/

theorem startsWith_eq_append (s pre : String) (h : startsWith s pre = true) :
    s = pre ++ trimLeading s pre := by
  unfold startsWith at h
  obtain ⟨t, ht⟩ := List.isPrefixOf_iff_prefix.mp h
  have hs : startsWith s pre = true := by
    unfold startsWith
    exact h
  unfold trimLeading
  rw [if_pos hs]
  apply String.ext
  rw [String.data_append, ← ht]
  simp

theorem trimLeading_of_not (s pre : String) (h : ¬ startsWith s pre = true) :
    trimLeading s pre = s := by
  unfold trimLeading
  rw [if_neg h]

/-- A command that starts with a standard directory is one or two standard
directories followed by the form the gate recurses on. -/
theorem pathStripped_spec (c : String)
    (h : (startsWith c "/usr/bin/" || startsWith c "/bin/") = true) :
    ∃ qs : List String, (∀ q ∈ qs, q ∈ standardDirectories)
      ∧ c = concatAll qs ++ pathStripped c := by
  unfold pathStripped
  by_cases h1 : startsWith c "/usr/bin/" = true
  · have e1 := startsWith_eq_append c "/usr/bin/" h1
    by_cases h2 : startsWith (trimLeading c "/usr/bin/") "/bin/" = true
    · have e2 := startsWith_eq_append _ "/bin/" h2
      refine ⟨["/usr/bin/", "/bin/"], by decide, ?_⟩
      simp only [concatAll, String.append_empty]
      rw [String.append_assoc, ← e2, ← e1]
    · have e2 : trimLeading (trimLeading c "/usr/bin/") "/bin/" = trimLeading c "/usr/bin/" :=
        trimLeading_of_not _ _ h2
      refine ⟨["/usr/bin/"], by decide, ?_⟩
      simp only [concatAll, String.append_empty]
      rw [e2, ← e1]
  · have h2 : startsWith c "/bin/" = true := by
      simpa [h1] using h
    have e0 : trimLeading c "/usr/bin/" = c := trimLeading_of_not _ _ h1
    rw [e0]
    refine ⟨["/bin/"], by decide, ?_⟩
    simp only [concatAll, String.append_empty]
    exact startsWith_eq_append c "/bin/" h2

theorem gate_of_directories (a : String) (ha : a ∈ allowedCommands) :
    ∀ ps : List String, (∀ p ∈ ps, p ∈ standardDirectories) →
      isCommandAllowed (concatAll ps ++ a) = true := by
  have hdisjoint : ∀ x ∈ allowedCommands, forbiddenCommands.contains x = false := by decide
  intro ps
  induction ps with
  | nil =>
    intro _
    simp only [concatAll, String.empty_append]
    unfold isCommandAllowed
    rw [isCommandAllowedWith_eq, hdisjoint a ha]
    have : allowedCommands.contains a = true := by simpa using ha
    simp only [Bool.false_eq_true, if_false, this, if_true]
  | cons p t ih =>
    intro hps
    have hp : p ∈ standardDirectories := hps p (List.mem_cons_self p t)
    have ht := ih (fun q hq => hps q (List.mem_cons_of_mem p hq))
    simp only [concatAll, String.append_assoc]
    unfold standardDirectories at hp
    simp only [List.mem_cons, List.mem_singleton, List.not_mem_nil, or_false] at hp
    unfold isCommandAllowed at ht ⊢
    rcases hp with rfl | rfl
    · rw [gate_usr_bin forbiddenCommands allowedCommands _ (by decide) (by decide)]
      exact ht
    · rw [gate_bin forbiddenCommands allowedCommands _ (by decide) (by decide)]
      exact ht

theorem directories_of_gate :
    ∀ (n : Nat) (c : String), c.data.length < n → isCommandAllowed c = true →
      ∃ (ps : List String) (a : String), (∀ p ∈ ps, p ∈ standardDirectories)
        ∧ a ∈ allowedCommands ∧ c = concatAll ps ++ a := by
  intro n
  induction n with
  | zero => intro c h; omega
  | succ k ih =>
    intro c hlen hc
    unfold isCommandAllowed at hc
    rw [isCommandAllowedWith_eq] at hc
    split at hc
    · cases hc
    · split at hc
      · next ha =>
        refine ⟨[], c, by simp, by simpa using ha, ?_⟩
        simp [concatAll]
      · split at hc
        · next hp =>
          have hlt := baseName_length_lt c hp
          obtain ⟨ps, a, hps, ha, e⟩ := ih (pathStripped c) (by unfold pathStripped; omega) hc
          obtain ⟨qs, hqs, e'⟩ := pathStripped_spec c hp
          refine ⟨qs ++ ps, a, ?_, ha, ?_⟩
          · intro p hp
            rcases List.mem_append.mp hp with h | h
            · exact hqs p h
            · exact hps p h
          · have hcat : ∀ xs ys : List String,
                concatAll (xs ++ ys) = concatAll xs ++ concatAll ys := by
              intro xs ys
              induction xs with
              | nil => simp [concatAll]
              | cons x t iht => simp [concatAll, iht, String.append_assoc]
            rw [hcat, String.append_assoc, ← e, ← e']
        · cases hc

/-- C15. For every string `c`: `isCommandAllowed c` is true exactly when `c` is
zero or more of `/usr/bin/` and `/bin/` followed by a name of `allowedCommands`;
the empty string, a name in neither list, `./ls`, `/usr/local/bin/ls` and
`/sbin/ip` are rejected. The recursion is on a strictly shorter string, and with
more fuel than `c` has characters it returns the answer. -/
theorem c15_gate_accepts_exactly (c : String) :
    (isCommandAllowed c = true ↔
        ∃ (ps : List String) (a : String), (∀ p ∈ ps, p ∈ standardDirectories)
          ∧ a ∈ allowedCommands ∧ c = concatAll ps ++ a)
      ∧ isCommandAllowed "" = false
      ∧ isCommandAllowed "python" = false
      ∧ isCommandAllowed "./ls" = false
      ∧ isCommandAllowed "/usr/local/bin/ls" = false
      ∧ isCommandAllowed "/sbin/ip" = false
      ∧ ((startsWith c "/usr/bin/" || startsWith c "/bin/") = true →
          (trimLeading (trimLeading c "/usr/bin/") "/bin/").data.length < c.data.length)
      ∧ (∀ fuel, c.data.length < fuel →
          isCommandAllowedFuel forbiddenCommands allowedCommands fuel c
            = some (isCommandAllowed c)) := by
  refine ⟨⟨directories_of_gate (c.data.length + 1) c (by omega), ?_⟩, by decide, by decide,
    by decide, by decide, by decide, baseName_length_lt c, ?_⟩
  · rintro ⟨ps, a, hps, ha, rfl⟩
    exact gate_of_directories a ha ps hps
  · intro fuel hfuel
    exact isCommandAllowedFuel_enough forbiddenCommands allowedCommands fuel c hfuel

/-- Witness of C15: `/usr/bin//bin/ls` is two directories and the name `ls`. -/
theorem c15_gate_accepts_exactly_witness :
    isCommandAllowed "/usr/bin//bin/ls" = true
      ∧ "/usr/bin//bin/ls" = concatAll ["/usr/bin/", "/bin/"] ++ "ls" :=
  ⟨((c15_gate_accepts_exactly "/usr/bin//bin/ls").1).mpr
      ⟨["/usr/bin/", "/bin/"], "ls", by decide, by decide, by decide⟩,
    by decide⟩

/-! ## Theorems on the keyword filters -/

theorem containsList_iff (s sub : List Char) : containsList s sub = true ↔ sub <:+: s := by
  induction s with
  | nil =>
    unfold containsList
    rw [List.isPrefixOf_iff_prefix]
    constructor
    · intro h
      exact h.isInfix
    · intro h
      have : sub = [] := List.eq_nil_of_infix_nil h
      rw [this]
  | cons c t ih =>
    unfold containsList
    rw [Bool.or_eq_true, List.isPrefixOf_iff_prefix, ih, List.infix_cons_iff]

/-- The inner loop finds a keyword exactly when some keyword of the set is a
substring of the line. -/
theorem matchesAny_iff (keywords : List String) (line : String) :
    matchesAny keywords line = true ↔ ∃ k ∈ keywords, k.data <:+: line.data := by
  unfold matchesAny stringsContains
  rw [List.any_eq_true]
  constructor
  · rintro ⟨k, hk, h⟩
    exact ⟨k, hk, (containsList_iff _ _).mp h⟩
  · rintro ⟨k, hk, h⟩
    exact ⟨k, hk, (containsList_iff _ _).mpr h⟩

theorem matchesAny_mono (line : String) (h : matchesAny errorKeywords line = true) :
    matchesAny smartKeywords line = true := by
  have hsub : ∀ k ∈ errorKeywords, k ∈ smartKeywords := by decide
  unfold matchesAny at h ⊢
  rw [List.any_eq_true] at h ⊢
  obtain ⟨k, hk, hc⟩ := h
  exact ⟨k, hsub k hk, hc⟩

theorem filterRelevantLinesList_of_match (lines : List String)
    (h : ∃ line ∈ lines, matchesAny smartKeywords line = true) :
    filterRelevantLinesList lines = lines.filter (matchesAny smartKeywords) := by
  obtain ⟨line, hl, hm⟩ := h
  have hmem : line ∈ lines.filter (matchesAny smartKeywords) := List.mem_filter.mpr ⟨hl, hm⟩
  have hne : (lines.filter (matchesAny smartKeywords)).length ≠ 0 := by
    intro h0
    rw [List.length_eq_zero] at h0
    rw [h0] at hmem
    cases hmem
  unfold filterRelevantLinesList
  simp only [hne, if_false]

theorem filterErrorsOnlyList_of_match (lines : List String)
    (h : ∃ line ∈ lines, matchesAny errorKeywords line = true) :
    filterErrorsOnlyList lines = lines.filter (matchesAny errorKeywords) := by
  obtain ⟨line, hl, hm⟩ := h
  have hmem : line ∈ lines.filter (matchesAny errorKeywords) := List.mem_filter.mpr ⟨hl, hm⟩
  have hne : (lines.filter (matchesAny errorKeywords)).length ≠ 0 := by
    intro h0
    rw [List.length_eq_zero] at h0
    rw [h0] at hmem
    cases hmem
  unfold filterErrorsOnlyList
  simp only [hne, if_false]

theorem filter_errors_sublist_filter_smart (lines : List String) :
    (lines.filter (matchesAny errorKeywords)).Sublist
      (lines.filter (matchesAny smartKeywords)) := by
  induction lines with
  | nil => exact List.Sublist.slnil
  | cons a t ih =>
    by_cases he : matchesAny errorKeywords a = true
    · rw [List.filter_cons_of_pos he, List.filter_cons_of_pos (matchesAny_mono a he)]
      exact ih.cons₂ a
    · rw [List.filter_cons_of_neg he]
      by_cases hs : matchesAny smartKeywords a = true
      · rw [List.filter_cons_of_pos hs]
        exact ih.cons a
      · rw [List.filter_cons_of_neg hs]
        exact ih

/-- C16. For every list of lines: when some line contains a keyword of the smart
set, `filterRelevantLinesList` returns exactly the lines that contain a keyword of
that set, and when some line contains a keyword of the errors-only set,
`filterErrorsOnlyList` returns exactly the lines that contain a keyword of that
set: in both cases a sub-list of the input in its order, every occurrence of a
matching line kept once, no other line added. Containing a keyword is the
substring test. The errors-only keywords are among the smart keywords, so what
errors-only keeps is a sub-list of what smart keeps. -/
theorem c16_filters_keep_matching_lines (lines : List String) :
    (∀ keywords line,
        matchesAny keywords line = true ↔ ∃ k ∈ keywords, k.data <:+: line.data)
      ∧ ((∃ line ∈ lines, matchesAny smartKeywords line = true) →
          filterRelevantLinesList lines = lines.filter (matchesAny smartKeywords)
            ∧ (filterRelevantLinesList lines).Sublist lines
            ∧ ∀ line, (filterRelevantLinesList lines).count line
                = if matchesAny smartKeywords line = true then lines.count line else 0)
      ∧ ((∃ line ∈ lines, matchesAny errorKeywords line = true) →
          filterErrorsOnlyList lines = lines.filter (matchesAny errorKeywords)
            ∧ (filterErrorsOnlyList lines).Sublist lines
            ∧ (∀ line, (filterErrorsOnlyList lines).count line
                = if matchesAny errorKeywords line = true then lines.count line else 0)
            ∧ (filterErrorsOnlyList lines).Sublist (filterRelevantLinesList lines))
      ∧ (∀ k ∈ errorKeywords, k ∈ smartKeywords) := by
  have hcount : ∀ (p : String → Bool) (line : String),
      (lines.filter p).count line = if p line = true then lines.count line else 0 := by
    intro p line
    split
    · next hp => exact List.count_filter hp
    · next hp =>
      apply List.count_eq_zero_of_not_mem
      intro hmem
      exact hp (List.mem_filter.mp hmem).2
  refine ⟨matchesAny_iff, ?_, ?_, by decide⟩
  · intro h
    rw [filterRelevantLinesList_of_match lines h]
    exact ⟨rfl, List.filter_sublist lines, hcount _⟩
  · intro h
    have hs : ∃ line ∈ lines, matchesAny smartKeywords line = true := by
      obtain ⟨line, hl, hm⟩ := h
      exact ⟨line, hl, matchesAny_mono line hm⟩
    rw [filterErrorsOnlyList_of_match lines h, filterRelevantLinesList_of_match lines hs]
    exact ⟨rfl, List.filter_sublist lines, hcount _, filter_errors_sublist_filter_smart lines⟩

/-- Witness of C16: four lines, one of them twice; the clean line is dropped. -/
theorem c16_filters_keep_matching_lines_witness :
    filterRelevantLinesList ["ERROR: panic", "boot ok", "warn: disk", "ERROR: panic"]
        = ["ERROR: panic", "warn: disk", "ERROR: panic"]
      ∧ filterErrorsOnlyList ["ERROR: panic", "boot ok", "warn: disk", "ERROR: panic"]
        = ["ERROR: panic", "ERROR: panic"]
      ∧ (filterErrorsOnlyList ["ERROR: panic", "boot ok", "warn: disk", "ERROR: panic"]).Sublist
          (filterRelevantLinesList ["ERROR: panic", "boot ok", "warn: disk", "ERROR: panic"]) :=
  ⟨by decide, by decide,
    ((c16_filters_keep_matching_lines
      ["ERROR: panic", "boot ok", "warn: disk", "ERROR: panic"]).2.2.1
        ⟨"ERROR: panic", by decide, by decide⟩).2.2.2⟩

/-- Counterexample to C17: the lines `Segfault at 0x0`, `SEGFAULT`, `Warn: disk low`
and `Fail: unit` contain a family word in title or upper case and no keyword of
the smart set; next to a line that matches they are not kept. -/
theorem c17_counterexample :
    stringsContains "Segfault at 0x0" "Segfault" = true
      ∧ stringsContains "Warn: disk low" "Warn" = true
      ∧ filterRelevantLinesList
          ["Segfault at 0x0", "SEGFAULT", "Warn: disk low", "Fail: unit", "error: boom"]
        = ["error: boom"] := by
  decide

/-- C17 (amended). For every keyword `w` the smart set lists, among them the lower,
upper and title case of error, critical, panic, denied, timeout, refused and
exception, the lower and upper case of warn and fail with `Warning` and `Failed`,
and the lower case of segfault: every line of the input that contains `w` is kept
by `filterRelevantLinesList`. -/
theorem c17_listed_variants_kept (lines : List String) (line w : String)
    (hw : w ∈ ["error", "ERROR", "Error", "critical", "CRITICAL", "Critical",
               "panic", "PANIC", "Panic", "denied", "DENIED", "Denied",
               "timeout", "TIMEOUT", "Timeout", "refused", "REFUSED", "Refused",
               "exception", "EXCEPTION", "Exception",
               "warn", "WARN", "Warning", "fail", "FAIL", "Failed", "segfault"])
    (hline : line ∈ lines) (hcontains : stringsContains line w = true) :
    line ∈ filterRelevantLinesList lines := by
  have hsub : ∀ k ∈ ["error", "ERROR", "Error", "critical", "CRITICAL", "Critical",
               "panic", "PANIC", "Panic", "denied", "DENIED", "Denied",
               "timeout", "TIMEOUT", "Timeout", "refused", "REFUSED", "Refused",
               "exception", "EXCEPTION", "Exception",
               "warn", "WARN", "Warning", "fail", "FAIL", "Failed", "segfault"],
      k ∈ smartKeywords := by decide
  have hm : matchesAny smartKeywords line = true := by
    unfold matchesAny
    rw [List.any_eq_true]
    exact ⟨w, hsub w hw, hcontains⟩
  rw [filterRelevantLinesList_of_match lines ⟨line, hline, hm⟩]
  exact List.mem_filter.mpr ⟨hline, hm⟩

/-- Witness of C17 (amended): a line with `Timeout` next to a clean line. -/
theorem c17_listed_variants_kept_witness :
    stringsContains "Timeout waiting for unit" "Timeout" = true
      ∧ "Timeout waiting for unit"
          ∈ filterRelevantLinesList ["boot ok", "Timeout waiting for unit"] :=
  ⟨by decide,
    c17_listed_variants_kept ["boot ok", "Timeout waiting for unit"]
      "Timeout waiting for unit" "Timeout" (by decide) (by decide) (by decide)⟩

/-! ## Theorems on the command reader -/

theorem readerRun_concat (s : ReaderState) (inputs : List ReaderInput) (x : ReaderInput) :
    readerRun s (inputs ++ [x]) = readerStep (readerRun s inputs) x := by
  unfold readerRun
  rw [List.foldl_append]
  rfl

theorem trailingTransient_concat (inputs : List ReaderInput) (x : ReaderInput) :
    trailingTransient (inputs ++ [x])
      = if isTransient x = true then trailingTransient inputs + 1 else 0 := by
  unfold trailingTransient
  rw [List.reverse_append, List.reverse_singleton, List.singleton_append]
  by_cases h : isTransient x = true
  · rw [List.takeWhile_cons_of_pos h, if_pos h, List.length_cons]
  · rw [List.takeWhile_cons_of_neg h, if_neg h, List.length_nil]

theorem readerStep_not_running (s : ReaderState) (x : ReaderInput) (h : s.running = false) :
    readerStep s x = s := by
  unfold readerStep
  simp [h]

theorem readerStep_transient_below (s : ReaderState) (h : s.running = true)
    (hlt : s.errorCount + 1 < 5) :
    readerStep s (ReaderInput.failed ReadError.other)
      = { s with errorCount := s.errorCount + 1 } := by
  have : ¬ 5 ≤ s.errorCount + 1 := by omega
  simp [readerStep, h, IsCloseError, IsUnexpectedCloseError, maxConsecutiveErrors, this]

theorem readerStep_transient_fifth (s : ReaderState) (h : s.running = true)
    (hge : 5 ≤ s.errorCount + 1) :
    readerStep s (ReaderInput.failed ReadError.other)
      = { s with errorCount := s.errorCount + 1, running := false, socketClosed := true,
                 lossSignalled := true } := by
  simp [readerStep, h, IsCloseError, IsUnexpectedCloseError, maxConsecutiveErrors, hge]

/-- While the reader runs over commands and transient errors, `errorCount` is the
number of failed reads since the last command or the start, it is below five, and
the reader has neither closed the socket nor signalled a loss. -/
theorem readerRun_invariant :
    ∀ inputs : List ReaderInput,
      (∀ i ∈ inputs, (∃ t, i = ReaderInput.command t) ∨ i = ReaderInput.failed ReadError.other) →
      (readerRun readerStart inputs).running = true →
      (readerRun readerStart inputs).errorCount = trailingTransient inputs
        ∧ (readerRun readerStart inputs).errorCount < 5
        ∧ (readerRun readerStart inputs).socketClosed = false
        ∧ (readerRun readerStart inputs).lossSignalled = false := by
  intro inputs
  induction inputs using List.reverseRecOn with
  | nil => intro _ _; exact ⟨rfl, by decide, rfl, rfl⟩
  | append_singleton l x ih =>
    intro hin hrun
    rw [readerRun_concat] at hrun ⊢
    have hprev : (readerRun readerStart l).running = true := by
      cases hp : (readerRun readerStart l).running with
      | true => rfl
      | false =>
        rw [readerStep_not_running _ _ hp, hp] at hrun
        cases hrun
    obtain ⟨hcount, hlt, hsock, hloss⟩ :=
      ih (fun i hi => hin i (List.mem_append_left _ hi)) hprev
    rw [trailingTransient_concat]
    rcases hin x (List.mem_append_right _ (List.mem_singleton_self x)) with ⟨t, rfl⟩ | rfl
    · simp [readerStep, hprev, isTransient, hsock, hloss]
    · by_cases h5 : 5 ≤ (readerRun readerStart l).errorCount + 1
      · rw [readerStep_transient_fifth _ hprev h5] at hrun
        cases hrun
      · rw [readerStep_transient_below _ hprev (by omega)]
        refine ⟨?_, ?_, hsock, hloss⟩
        · show (readerRun readerStart l).errorCount + 1 = _
          rw [hcount]
          rfl
        · show (readerRun readerStart l).errorCount + 1 < 5
          omega

/-- C18. For the reader in any running state: a transient error is retried, with
the socket open and no loss signalled, while it is the 1st to 4th failed read in a
row, and declares the connection dead (socket closed, loss signalled, reader
stopped) when it is the 5th; a command resets the error count to 0; a close error
other than the normal closure declares the connection dead whatever the count;
the normal closure ends the reader without closing the socket or signalling a
loss. Over any sequence of commands and transient errors from the start, the
error count of a running reader is the number of failed reads since the last
command or the start. -/
theorem c18_reader_error_threshold (s : ReaderState) (h : s.running = true) :
    (s.errorCount + 1 < 5 →
        readerStep s (ReaderInput.failed ReadError.other)
          = { s with errorCount := s.errorCount + 1 })
      ∧ (5 ≤ s.errorCount + 1 →
        readerStep s (ReaderInput.failed ReadError.other)
          = { s with errorCount := s.errorCount + 1, running := false, socketClosed := true,
                     lossSignalled := true })
      ∧ (∀ cmdType, readerStep s (ReaderInput.command cmdType)
          = { s with errorCount := 0, handled := s.handled ++ [cmdType] })
      ∧ (∀ code, code ≠ CloseNormalClosure →
          readerStep s (ReaderInput.failed (ReadError.closeError code))
            = { s with errorCount := s.errorCount + 1, running := false, socketClosed := true,
                       lossSignalled := true })
      ∧ readerStep s (ReaderInput.failed (ReadError.closeError CloseNormalClosure))
          = { s with errorCount := s.errorCount + 1, running := false }
      ∧ (∀ inputs : List ReaderInput,
          (∀ i ∈ inputs,
            (∃ t, i = ReaderInput.command t) ∨ i = ReaderInput.failed ReadError.other) →
          (readerRun readerStart inputs).running = true →
          (readerRun readerStart inputs).errorCount = trailingTransient inputs
            ∧ (readerRun readerStart inputs).errorCount < 5
            ∧ (readerRun readerStart inputs).socketClosed = false
            ∧ (readerRun readerStart inputs).lossSignalled = false) := by
  refine ⟨?_, ?_, ?_, ?_, ?_, readerRun_invariant⟩
  · exact readerStep_transient_below s h
  · exact readerStep_transient_fifth s h
  · intro cmdType
    simp [readerStep, h]
  · intro code hcode
    simp [readerStep, h, IsCloseError, IsUnexpectedCloseError, hcode]
  · simp [readerStep, h, IsCloseError]

/-- Witness of C18: from the start, four transient errors are retried and the
fifth declares the connection dead; a command in between resets the count. -/
theorem c18_reader_error_threshold_witness :
    readerRun readerStart (List.replicate 4 (ReaderInput.failed ReadError.other))
        = { errorCount := 4, running := true, socketClosed := false, lossSignalled := false,
            handled := [] }
      ∧ readerRun readerStart (List.replicate 5 (ReaderInput.failed ReadError.other))
        = { errorCount := 5, running := false, socketClosed := true, lossSignalled := true,
            handled := [] }
      ∧ readerRun readerStart
          (List.replicate 4 (ReaderInput.failed ReadError.other) ++ [ReaderInput.command "ping"]
            ++ List.replicate 4 (ReaderInput.failed ReadError.other))
        = { errorCount := 4, running := true, socketClosed := false, lossSignalled := false,
            handled := ["ping"] }
      ∧ readerStep readerStart (ReaderInput.failed ReadError.other)
        = { readerStart with errorCount := readerStart.errorCount + 1 } :=
  ⟨by decide, by decide, by decide,
    (c18_reader_error_threshold readerStart rfl).1 (by decide)⟩

/-! ## Theorems on the senders -/

/-- C19 on the code: a connection is made and started, the reader declares it
dead, and `Run` makes new channels, connects and starts again. No `done` channel
was closed, the senders of the first connection are still live after their
`select`, and two stats senders and two heartbeat senders are live, one of each
started with the channel of the first connection. -/
theorem c19_old_senders_stay_live :
    senderRun senderStart
        [SenderAction.makeChannels, SenderAction.connect, SenderAction.start,
         SenderAction.readerDeclaresDead, SenderAction.sendersSelect,
         SenderAction.makeChannels, SenderAction.connect, SenderAction.start,
         SenderAction.sendersSelect]
      = { channelsMade := 2, closedChannels := [], statsSenders := [1, 2],
          heartbeatSenders := [1, 2], connOpen := true, lossSignalled := false } := by
  decide

/-! ## Theorems on payload decoding -/

/-- Discarding the fraction gives the floor of a value that is not negative and
the ceiling of a negative one. -/
theorem truncToZero_eq (v : ℚ) : truncToZero v = if 0 ≤ v then ⌊v⌋ else ⌈v⌉ := by
  unfold truncToZero
  split
  · next hv =>
    rw [Rat.floor_def, Int.tdiv_eq_ediv (Rat.num_nonneg.mpr hv) (Int.natCast_nonneg _)]
  · next hv =>
    have hneg : 0 ≤ -v := by linarith
    have hfl : ⌊-v⌋ = (-v.num) / (v.den : Int) := by
      rw [Rat.floor_def, Rat.neg_num, Rat.neg_den]
    have hc : ⌈v⌉ = -⌊-v⌋ := by
      rw [Int.floor_neg, neg_neg]
    have hnum : 0 ≤ -v.num := by
      have := Rat.num_nonneg.mpr hneg
      rwa [Rat.neg_num] at this
    rw [hc, hfl, ← Int.tdiv_eq_ediv hnum (Int.natCast_nonneg _), Int.neg_tdiv, neg_neg]

theorem floatToInt_of_fits (v : ℚ) (hlo : -2 ^ 63 ≤ truncToZero v)
    (hhi : truncToZero v < 2 ^ 63) : floatToInt v = truncToZero v := by
  unfold floatToInt
  rw [if_pos ⟨hlo, hhi⟩]

theorem floatToInt_of_not_fits (v : ℚ)
    (h : ¬ (-2 ^ 63 ≤ truncToZero v ∧ truncToZero v < 2 ^ 63)) :
    floatToInt v = -2 ^ 63 := by
  unfold floatToInt
  rw [if_neg h]

theorem floatToInt_range (v : ℚ) : -2 ^ 63 ≤ floatToInt v ∧ floatToInt v < 2 ^ 63 := by
  unfold floatToInt
  split
  · next h => exact h
  · norm_num

theorem stringElements_eq (elems : List JsonValue) :
    stringElements elems = elems.filterMap stringOf := by
  induction elems with
  | nil => rfl
  | cons a t ih =>
    cases a <;> simp [stringElements, stringOf, ih]

theorem getStringFromPayload_string (payload : String → Option JsonValue)
    (key defaultValue s : String) (h : payload key = some (JsonValue.string s)) :
    getStringFromPayload payload key defaultValue = s := by
  unfold getStringFromPayload
  rw [h]

theorem getStringFromPayload_default (payload : String → Option JsonValue)
    (key defaultValue : String) (h : ∀ s, payload key ≠ some (JsonValue.string s)) :
    getStringFromPayload payload key defaultValue = defaultValue := by
  unfold getStringFromPayload
  split
  · next s heq => exact absurd heq (h s)
  · rfl

theorem getIntFromPayload_default (payload : String → Option JsonValue)
    (key : String) (defaultValue : Int) (hint : ∀ n, payload key ≠ some (JsonValue.int n))
    (hfloat : ∀ v, payload key ≠ some (JsonValue.float64 v)) :
    getIntFromPayload payload key defaultValue = defaultValue := by
  unfold getIntFromPayload
  split
  · next n heq => exact absurd heq (hint n)
  · next v heq => exact absurd heq (hfloat v)
  · rfl

/-- Counterexample to C20: the payload with `timeout` the float64 `1e19`. The
value with its fraction discarded is `10^19`, which no 64-bit `int` holds; the
request gets the timeout `-2^63`. -/
theorem c20_counterexample :
    (executeRequestOf
        (fun key =>
          if key = "timeout" then some (JsonValue.float64 10000000000000000000)
          else none)).Timeout = -9223372036854775808
      ∧ truncToZero 10000000000000000000 = 10000000000000000000 := by
  decide

/-- C20 (amended). For every payload (any lookup, the empty one included) decoding
builds a request and hands it to `HandleExecuteCommand`; `sessionId`, `command`
and `workingDir` are the value of the payload when it is a string and otherwise
the empty string, the empty string and `/tmp`; `timeout` is the value when it is
an int, otherwise 300 when it is not a float64, and for a float64 the value with
its fraction discarded (floor when not negative, ceiling when negative) when that
fits in a 64-bit int; a float64 that does not fit gives an int all the same, the
least one in this model. `args` is the list of the string elements of the `args`
array in their order, and empty when `args` is absent or not an array. Each field
of the request depends on the payload at its own key only. -/
theorem c20_payload_decoding (payload : String → Option JsonValue) (outcome : RunOutcome) :
    handleExecuteCommand payload outcome
        = HandleExecuteCommand (executeRequestOf payload) outcome
      ∧ (∀ s, payload "sessionId" = some (JsonValue.string s) →
          (executeRequestOf payload).SessionID = s)
      ∧ ((∀ s, payload "sessionId" ≠ some (JsonValue.string s)) →
          (executeRequestOf payload).SessionID = "")
      ∧ (∀ s, payload "command" = some (JsonValue.string s) →
          (executeRequestOf payload).Command = s)
      ∧ ((∀ s, payload "command" ≠ some (JsonValue.string s)) →
          (executeRequestOf payload).Command = "")
      ∧ (∀ s, payload "workingDir" = some (JsonValue.string s) →
          (executeRequestOf payload).WorkingDir = s)
      ∧ ((∀ s, payload "workingDir" ≠ some (JsonValue.string s)) →
          (executeRequestOf payload).WorkingDir = "/tmp")
      ∧ (∀ n, payload "timeout" = some (JsonValue.int n) →
          (executeRequestOf payload).Timeout = n)
      ∧ (∀ v, payload "timeout" = some (JsonValue.float64 v) →
          -2 ^ 63 ≤ truncToZero v → truncToZero v < 2 ^ 63 →
          (executeRequestOf payload).Timeout = truncToZero v
            ∧ truncToZero v = if 0 ≤ v then ⌊v⌋ else ⌈v⌉)
      ∧ (∀ v, payload "timeout" = some (JsonValue.float64 v) →
          ¬ (-2 ^ 63 ≤ truncToZero v ∧ truncToZero v < 2 ^ 63) →
          (executeRequestOf payload).Timeout = -2 ^ 63)
      ∧ (∀ v, payload "timeout" = some (JsonValue.float64 v) →
          -2 ^ 63 ≤ (executeRequestOf payload).Timeout
            ∧ (executeRequestOf payload).Timeout < 2 ^ 63)
      ∧ ((∀ n, payload "timeout" ≠ some (JsonValue.int n)) →
          (∀ v, payload "timeout" ≠ some (JsonValue.float64 v)) →
          (executeRequestOf payload).Timeout = 300)
      ∧ (∀ elems, payload "args" = some (JsonValue.array elems) →
          (executeRequestOf payload).Args = elems.filterMap stringOf)
      ∧ ((∀ elems, payload "args" ≠ some (JsonValue.array elems)) →
          (executeRequestOf payload).Args = [])
      ∧ (∀ other : String → Option JsonValue,
          (payload "sessionId" = other "sessionId" →
            (executeRequestOf payload).SessionID = (executeRequestOf other).SessionID)
          ∧ (payload "command" = other "command" →
            (executeRequestOf payload).Command = (executeRequestOf other).Command)
          ∧ (payload "workingDir" = other "workingDir" →
            (executeRequestOf payload).WorkingDir = (executeRequestOf other).WorkingDir)
          ∧ (payload "timeout" = other "timeout" →
            (executeRequestOf payload).Timeout = (executeRequestOf other).Timeout)
          ∧ (payload "args" = other "args" →
            (executeRequestOf payload).Args = (executeRequestOf other).Args)) := by
  refine ⟨rfl, ?_, ?_, ?_, ?_, ?_, ?_, ?_, ?_, ?_, ?_, ?_, ?_, ?_, ?_⟩
  · intro s h
    exact getStringFromPayload_string payload _ _ s h
  · intro h
    exact getStringFromPayload_default payload _ _ h
  · intro s h
    exact getStringFromPayload_string payload _ _ s h
  · intro h
    exact getStringFromPayload_default payload _ _ h
  · intro s h
    exact getStringFromPayload_string payload _ _ s h
  · intro h
    exact getStringFromPayload_default payload _ _ h
  · intro n h
    show getIntFromPayload payload "timeout" 300 = n
    unfold getIntFromPayload
    rw [h]
  · intro v h hlo hhi
    refine ⟨?_, truncToZero_eq v⟩
    show getIntFromPayload payload "timeout" 300 = truncToZero v
    unfold getIntFromPayload
    rw [h]
    exact floatToInt_of_fits v hlo hhi
  · intro v h hout
    show getIntFromPayload payload "timeout" 300 = -2 ^ 63
    unfold getIntFromPayload
    rw [h]
    exact floatToInt_of_not_fits v hout
  · intro v h
    show -2 ^ 63 ≤ getIntFromPayload payload "timeout" 300
      ∧ getIntFromPayload payload "timeout" 300 < 2 ^ 63
    unfold getIntFromPayload
    rw [h]
    exact floatToInt_range v
  · intro hint hfloat
    exact getIntFromPayload_default payload _ _ hint hfloat
  · intro elems h
    show (match payload "args" with
      | some (JsonValue.array argsSlice) => stringElements argsSlice
      | _ => []) = _
    rw [h]
    exact stringElements_eq elems
  · intro h
    show (match payload "args" with
      | some (JsonValue.array argsSlice) => stringElements argsSlice
      | _ => []) = _
    split
    · next elems heq => exact absurd heq (h elems)
    · rfl
  · intro other
    refine ⟨?_, ?_, ?_, ?_, ?_⟩
    · intro h
      show getStringFromPayload payload "sessionId" "" = getStringFromPayload other "sessionId" ""
      unfold getStringFromPayload
      rw [h]
    · intro h
      show getStringFromPayload payload "command" "" = getStringFromPayload other "command" ""
      unfold getStringFromPayload
      rw [h]
    · intro h
      show getStringFromPayload payload "workingDir" "/tmp"
        = getStringFromPayload other "workingDir" "/tmp"
      unfold getStringFromPayload
      rw [h]
    · intro h
      show getIntFromPayload payload "timeout" 300 = getIntFromPayload other "timeout" 300
      unfold getIntFromPayload
      rw [h]
    · intro h
      show (match payload "args" with
        | some (JsonValue.array argsSlice) => stringElements argsSlice
        | _ => []) = (match other "args" with
        | some (JsonValue.array argsSlice) => stringElements argsSlice
        | _ => [])
      rw [h]

/-- Witness of C20 (amended): a payload with a float64 timeout, a mistyped `workingDir`, no
`sessionId`, and an `args` array with a number in it. -/
theorem c20_payload_decoding_witness :
    executeRequestOf
        (fun key =>
          if key = "command" then some (JsonValue.string "ls")
          else if key = "workingDir" then some (JsonValue.bool true)
          else if key = "timeout" then some (JsonValue.float64 30)
          else if key = "args" then
            some (JsonValue.array
              [JsonValue.string "-l", JsonValue.int 3, JsonValue.string "/var/log"])
          else none)
      = { SessionID := "", Command := "ls", Args := ["-l", "/var/log"],
          WorkingDir := "/tmp", Timeout := 30 }
      ∧ executeRequestOf (fun _ => none)
        = { SessionID := "", Command := "", Args := [], WorkingDir := "/tmp", Timeout := 300 }
      ∧ handleExecuteCommand (fun _ => none) ⟨"", none, false⟩
        = HandleExecuteCommand (executeRequestOf (fun _ => none)) ⟨"", none, false⟩ :=
  ⟨by decide, by decide, (c20_payload_decoding (fun _ => none) ⟨"", none, false⟩).1⟩

/-! ## Theorems on chunk numbering and progress -/

/-- The slice of chunk `k` (counted from 1) is what the loop takes at `k - 1`. -/
theorem slice_eq_chunkLinesAt (lines : List String) (k : Nat) (hk : 1 ≤ k) :
    (lines.drop (1000 * (k - 1))).take (min (1000 * k) lines.length - 1000 * (k - 1))
      = chunkLinesAt lines (k - 1) := by
  unfold chunkLinesAt
  rw [show (k - 1) * 1000 = 1000 * (k - 1) by ring, List.take_eq_take, List.length_drop]
  omega

theorem slice_getElem? (lines : List String) (k i : Nat) :
    ((lines.drop (1000 * (k - 1))).take (min (1000 * k) lines.length - 1000 * (k - 1)))[i]?
      = if 1000 * (k - 1) + i < min (1000 * k) lines.length then lines[1000 * (k - 1) + i]?
        else none := by
  rw [List.getElem?_take, List.getElem?_drop]
  by_cases h : 1000 * (k - 1) + i < min (1000 * k) lines.length
  · rw [if_pos h, if_pos (by omega)]
  · rw [if_neg h, if_neg (by omega)]

theorem slice_length (lines : List String) (k : Nat) (hk : 1 ≤ k)
    (hle : k ≤ (lines.length + 999) / 1000) :
    (k < (lines.length + 999) / 1000 →
        ((lines.drop (1000 * (k - 1))).take
          (min (1000 * k) lines.length - 1000 * (k - 1))).length = 1000)
      ∧ 1 ≤ ((lines.drop (1000 * (k - 1))).take
          (min (1000 * k) lines.length - 1000 * (k - 1))).length
      ∧ ((lines.drop (1000 * (k - 1))).take
          (min (1000 * k) lines.length - 1000 * (k - 1))).length ≤ 1000 := by
  rw [List.length_take, List.length_drop]
  refine ⟨fun hlt => ?_, ?_, ?_⟩ <;> omega

theorem progress_bounds (a n : Nat) (ha : 1 ≤ a) (han : a ≤ n) :
    0 < (a : ℚ) / (n : ℚ) * 100 ∧ (a : ℚ) / (n : ℚ) * 100 ≤ 100 := by
  have hn : (0 : ℚ) < (n : ℚ) := by exact_mod_cast (by omega : 0 < n)
  have ha' : (0 : ℚ) < (a : ℚ) := by exact_mod_cast (by omega : 0 < a)
  have hle : (a : ℚ) ≤ (n : ℚ) := by exact_mod_cast han
  constructor
  · positivity
  · have : (a : ℚ) / (n : ℚ) ≤ 1 := (div_le_one hn).mpr hle
    linarith

theorem progress_full (n : Nat) (hn : 1 ≤ n) : (n : ℚ) / (n : ℚ) * 100 = 100 := by
  have : (n : ℚ) ≠ 0 := by exact_mod_cast (by omega : n ≠ 0)
  rw [div_self this, one_mul]

theorem progress_lt (a b n : Nat) (hab : a < b) (hn : 1 ≤ n) :
    (a : ℚ) / (n : ℚ) * 100 < (b : ℚ) / (n : ℚ) * 100 := by
  have hn' : (0 : ℚ) < (n : ℚ) := by exact_mod_cast (by omega : 0 < n)
  have hab' : (a : ℚ) < (b : ℚ) := by exact_mod_cast hab
  have : (a : ℚ) / (n : ℚ) < (b : ℚ) / (n : ℚ) := div_lt_div_of_pos_right hab' hn'
  linarith

/-- The `log_data` message at each position of a completed read. -/
theorem logDataOf_getElem? (mateID : String) (readFile : String → Except String String)
    (nowMillis : Int) (request : ReadLogRequest) (content : String)
    (h : readFile request.Path = Except.ok content) :
    ∃ r, HandleReadLogCommand mateID readFile nowMillis request = some r
      ∧ (logDataOf r.events).length
          = ((selectLines request.Mode (splitLines content)).length + 999) / 1000
      ∧ ∀ c, c < ((selectLines request.Mode (splitLines content)).length + 999) / 1000 →
          (logDataOf r.events)[c]? =
            some
              { SessionID := logSessionID mateID nowMillis request,
                Chunk := joinLines
                  (chunkLinesAt (selectLines request.Mode (splitLines content)) c),
                Progress :=
                  ((min (c * 1000 + 1000)
                    (selectLines request.Mode (splitLines content)).length : Nat) : ℚ)
                    / ((selectLines request.Mode (splitLines content)).length : ℚ) * 100,
                CurrentLine := min (c * 1000 + 1000)
                  (selectLines request.Mode (splitLines content)).length,
                TotalLines := (selectLines request.Mode (splitLines content)).length,
                ChunkNumber := c + 1,
                TotalChunks :=
                  ((selectLines request.Mode (splitLines content)).length + 999) / 1000 } := by
  obtain ⟨r, hr, -, -, hd⟩ :=
    logDataOf_HandleReadLogCommand mateID readFile nowMillis request content h
  refine ⟨r, hr, ?_, ?_⟩
  · rw [hd, List.length_map, List.length_range]
  · intro c hc
    rw [hd, List.getElem?_map, List.getElem?_range hc]
    rfl

/-- C21. For every readable file and mode, with `lines` the filtered lines and
`n` their number: for `k` from 1 to the number of chunks, the `k`-th `log_data`
message has `ChunkNumber = k`; its text is the join of the lines with indices
from `1000 * (k - 1)` up to but excluding `min (1000 * k) n`, which are 1000 lines
for every chunk but the last and between 1 and 1000 for the last; `CurrentLine`
is `min (1000 * k) n`, `TotalLines` is `n`, and `Progress` is the rational
`CurrentLine / n * 100`, above 0, at most 100, and 100 on the last chunk.
`CurrentLine` and `Progress` grow strictly with `k`. -/
theorem c21_chunk_metadata (mateID : String) (readFile : String → Except String String)
    (nowMillis : Int) (request : ReadLogRequest) (content : String) (lines : List String)
    (h : readFile request.Path = Except.ok content)
    (hlines : lines = selectLines request.Mode (splitLines content)) :
    ∃ r, HandleReadLogCommand mateID readFile nowMillis request = some r
      ∧ (logDataOf r.events).length = (lines.length + 999) / 1000
      ∧ (∀ k, 1 ≤ k → k ≤ (lines.length + 999) / 1000 →
          ∃ m, (logDataOf r.events)[k - 1]? = some m
            ∧ m.ChunkNumber = k
            ∧ m.Chunk = joinLines
                ((lines.drop (1000 * (k - 1))).take
                  (min (1000 * k) lines.length - 1000 * (k - 1)))
            ∧ splitLines m.Chunk =
                (lines.drop (1000 * (k - 1))).take
                  (min (1000 * k) lines.length - 1000 * (k - 1))
            ∧ (∀ i, ((lines.drop (1000 * (k - 1))).take
                  (min (1000 * k) lines.length - 1000 * (k - 1)))[i]?
                = if 1000 * (k - 1) + i < min (1000 * k) lines.length then
                    lines[1000 * (k - 1) + i]?
                  else none)
            ∧ (k < (lines.length + 999) / 1000 →
                ((lines.drop (1000 * (k - 1))).take
                  (min (1000 * k) lines.length - 1000 * (k - 1))).length = 1000)
            ∧ 1 ≤ ((lines.drop (1000 * (k - 1))).take
                  (min (1000 * k) lines.length - 1000 * (k - 1))).length
            ∧ ((lines.drop (1000 * (k - 1))).take
                  (min (1000 * k) lines.length - 1000 * (k - 1))).length ≤ 1000
            ∧ m.CurrentLine = min (1000 * k) lines.length
            ∧ m.TotalLines = lines.length
            ∧ m.Progress = (m.CurrentLine : ℚ) / (lines.length : ℚ) * 100
            ∧ 0 < m.Progress
            ∧ m.Progress ≤ 100
            ∧ (k = (lines.length + 999) / 1000 → m.Progress = 100))
      ∧ (∀ j k mj mk, 1 ≤ j → j < k → k ≤ (lines.length + 999) / 1000 →
          (logDataOf r.events)[j - 1]? = some mj →
          (logDataOf r.events)[k - 1]? = some mk →
          mj.CurrentLine < mk.CurrentLine ∧ mj.Progress < mk.Progress) := by
  subst hlines
  obtain ⟨r, hr, hlen, hat⟩ := logDataOf_getElem? mateID readFile nowMillis request content h
  have hpos : 1 ≤ (selectLines request.Mode (splitLines content)).length :=
    List.length_pos.mpr (selectLines_ne_nil request.Mode content)
  refine ⟨r, hr, hlen, ?_, ?_⟩
  · intro k hk hkT
    have hc : k - 1 < ((selectLines request.Mode (splitLines content)).length + 999) / 1000 := by
      omega
    have hcur : min ((k - 1) * 1000 + 1000) (selectLines request.Mode (splitLines content)).length
        = min (1000 * k) (selectLines request.Mode (splitLines content)).length := by
      congr 1
      omega
    have hslice := slice_eq_chunkLinesAt (selectLines request.Mode (splitLines content)) k hk
    have hlens := slice_length (selectLines request.Mode (splitLines content)) k hk hkT
    have hb := progress_bounds
      (min (1000 * k) (selectLines request.Mode (splitLines content)).length)
      (selectLines request.Mode (splitLines content)).length (by omega) (by omega)
    refine ⟨_, hat (k - 1) hc, ?_, ?_, ?_, ?_, hlens.1, hlens.2.1, hlens.2.2, ?_, rfl, ?_,
      ?_, ?_, ?_⟩
    · show k - 1 + 1 = k
      omega
    · show joinLines _ = _
      rw [hslice]
    · show splitLines (joinLines _) = _
      rw [hslice]
      exact splitLines_joinLines _
        (chunkLinesAt_ne_nil _ (k - 1) hc)
        (fun line hline =>
          selectLines_no_newline request.Mode content line (mem_chunkLinesAt _ _ line hline))
    · intro i
      exact slice_getElem? _ k i
    · exact hcur
    · show _ = ((min ((k - 1) * 1000 + 1000) _ : Nat) : ℚ) / _ * 100
      rfl
    · show 0 < ((min ((k - 1) * 1000 + 1000) _ : Nat) : ℚ) / _ * 100
      rw [hcur]
      exact hb.1
    · show ((min ((k - 1) * 1000 + 1000) _ : Nat) : ℚ) / _ * 100 ≤ 100
      rw [hcur]
      exact hb.2
    · intro hlast
      show ((min ((k - 1) * 1000 + 1000) _ : Nat) : ℚ) / _ * 100 = 100
      have : min ((k - 1) * 1000 + 1000) (selectLines request.Mode (splitLines content)).length
          = (selectLines request.Mode (splitLines content)).length := by omega
      rw [this]
      exact progress_full _ hpos
  · intro j k mj mk hj hjk hkT hmj hmk
    rw [hat (j - 1) (by omega)] at hmj
    rw [hat (k - 1) (by omega)] at hmk
    obtain rfl := Option.some.inj hmj
    obtain rfl := Option.some.inj hmk
    have hlt : min ((j - 1) * 1000 + 1000) (selectLines request.Mode (splitLines content)).length
        < min ((k - 1) * 1000 + 1000) (selectLines request.Mode (splitLines content)).length := by
      omega
    exact ⟨hlt, progress_lt _ _ _ hlt hpos⟩

/-- Witness of C21: a file of two lines and a trailing newline, read in full. -/
theorem c21_chunk_metadata_witness :
    selectLines "full" (splitLines "a\nb\n") = ["a", "b", ""]
      ∧ ∃ r, HandleReadLogCommand "mate-1" (fun _ => Except.ok "a\nb\n") 0
            ⟨"s-21", "/var/log/syslog", "full", 0⟩ = some r
        ∧ (logDataOf r.events).length = (["a", "b", ""].length + 999) / 1000
        ∧ ∃ m, (logDataOf r.events)[1 - 1]? = some m
          ∧ m.ChunkNumber = 1
          ∧ m.CurrentLine = min (1000 * 1) ["a", "b", ""].length
          ∧ m.TotalLines = ["a", "b", ""].length
          ∧ m.Progress = 100 := by
  obtain ⟨r, hr, hlen, hk, -⟩ :=
    c21_chunk_metadata "mate-1" (fun _ => Except.ok "a\nb\n") 0
      ⟨"s-21", "/var/log/syslog", "full", 0⟩ "a\nb\n" ["a", "b", ""] rfl (by decide)
  obtain ⟨m, hm, hnum, -, -, -, -, -, -, hcur, htot, -, -, -, hfull⟩ :=
    hk 1 (le_refl 1) (by decide)
  exact ⟨by decide, r, hr, hlen, m, hm, hnum, hcur, htot, hfull (by decide)⟩

/-! ## Theorems on the filtered lines never being empty -/

theorem filterErrorsOnlyList_of_no_match (lines : List String)
    (hno : ∀ line ∈ lines, matchesAny errorKeywords line = false) :
    filterErrorsOnlyList lines = ["No errors found in log file."] := by
  have hf : lines.filter (matchesAny errorKeywords) = [] := by
    rw [List.filter_eq_nil_iff]
    intro line hline
    rw [hno line hline]
    exact Bool.false_ne_true
  unfold filterErrorsOnlyList
  simp only [hf, List.length_nil, if_true]

/-- The bounds of the slice of each chunk are in range, and the slice is taken. -/
theorem sliceLines_in_range (lines : List String) (chunkNum : Nat)
    (h : chunkNum < (lines.length + linesPerChunk - 1) / linesPerChunk) :
    chunkNum * linesPerChunk
        ≤ (if chunkNum * linesPerChunk + linesPerChunk > lines.length then lines.length
            else chunkNum * linesPerChunk + linesPerChunk)
      ∧ (if chunkNum * linesPerChunk + linesPerChunk > lines.length then lines.length
            else chunkNum * linesPerChunk + linesPerChunk) ≤ lines.length
      ∧ (sliceLines lines (chunkNum * linesPerChunk)
            (if chunkNum * linesPerChunk + linesPerChunk > lines.length then lines.length
              else chunkNum * linesPerChunk + linesPerChunk)).isSome = true := by
  unfold linesPerChunk at h ⊢
  have hlt : chunkNum * 1000 < lines.length := by omega
  have h1 : chunkNum * 1000
      ≤ (if chunkNum * 1000 + 1000 > lines.length then lines.length
          else chunkNum * 1000 + 1000) := by
    split <;> omega
  have h2 : (if chunkNum * 1000 + 1000 > lines.length then lines.length
      else chunkNum * 1000 + 1000) ≤ lines.length := by
    split <;> omega
  refine ⟨h1, h2, ?_⟩
  unfold sliceLines
  rw [if_pos ⟨h1, h2⟩]
  rfl

/-- C22. For every readable file, the empty one included, and every mode, the
filtered lines are not empty: the split has at least one line, the smart filter
of a non-empty list (its fallback included) has at least one line, and the
errors-only filter without a match is the one synthetic line. So the divisor of
the progress is not zero, for each chunk the bounds of the slice satisfy
`start ≤ end ≤ n` and the slice is taken without a panic, the handler returns,
and at least one `log_data` message comes before the one `log_complete`. -/
theorem c22_filtered_lines_never_empty (mateID : String)
    (readFile : String → Except String String) (nowMillis : Int) (request : ReadLogRequest)
    (content : String) (lines : List String)
    (h : readFile request.Path = Except.ok content)
    (hlines : lines = selectLines request.Mode (splitLines content)) :
    1 ≤ (splitLines content).length
      ∧ (∀ ls : List String, ls ≠ [] → 1 ≤ (filterRelevantLinesList ls).length)
      ∧ (∀ ls : List String, (∀ line ∈ ls, matchesAny errorKeywords line = false) →
          filterErrorsOnlyList ls = ["No errors found in log file."])
      ∧ (∀ ls : List String, 1 ≤ (filterErrorsOnlyList ls).length)
      ∧ 1 ≤ lines.length
      ∧ (lines.length : ℚ) ≠ 0
      ∧ (∀ chunkNum, chunkNum < (lines.length + linesPerChunk - 1) / linesPerChunk →
          chunkNum * linesPerChunk
              ≤ (if chunkNum * linesPerChunk + linesPerChunk > lines.length then lines.length
                  else chunkNum * linesPerChunk + linesPerChunk)
            ∧ (if chunkNum * linesPerChunk + linesPerChunk > lines.length then lines.length
                  else chunkNum * linesPerChunk + linesPerChunk) ≤ lines.length
            ∧ (sliceLines lines (chunkNum * linesPerChunk)
                  (if chunkNum * linesPerChunk + linesPerChunk > lines.length then lines.length
                    else chunkNum * linesPerChunk + linesPerChunk)).isSome = true)
      ∧ ∃ r, HandleReadLogCommand mateID readFile nowMillis request = some r
        ∧ r.err = none
        ∧ 1 ≤ (logDataOf r.events).length
        ∧ r.events =
            (logDataOf r.events).map (fun m => Event.send "log_data" (Payload.logData m))
              ++ [ Event.send "log_complete"
                    (Payload.logComplete
                      { SessionID := logSessionID mateID nowMillis request,
                        TotalSize := lines.length }) ] := by
  subst hlines
  have hpos : 1 ≤ (selectLines request.Mode (splitLines content)).length :=
    List.length_pos.mpr (selectLines_ne_nil request.Mode content)
  obtain ⟨r, hr, herr, hev, hd⟩ :=
    logDataOf_HandleReadLogCommand mateID readFile nowMillis request content h
  refine ⟨List.length_pos.mpr (splitLines_ne_nil content),
    fun ls hls => List.length_pos.mpr (filterRelevantLinesList_ne_nil ls hls),
    filterErrorsOnlyList_of_no_match,
    fun ls => List.length_pos.mpr (filterErrorsOnlyList_ne_nil ls),
    hpos, ?_, fun chunkNum hc => sliceLines_in_range _ chunkNum hc, r, hr, herr, ?_, hev⟩
  · exact_mod_cast (by omega : (selectLines request.Mode (splitLines content)).length ≠ 0)
  · rw [hd, List.length_map, List.length_range]
    omega

/-- Witness of C22: the empty file read in smart mode; the one empty line of the
split is the fallback. -/
theorem c22_filtered_lines_never_empty_witness :
    splitLines "" = [""]
      ∧ selectLines "smart" (splitLines "") = [""]
      ∧ selectLines "errors-only" (splitLines "") = ["No errors found in log file."]
      ∧ ∃ r, HandleReadLogCommand "mate-1" (fun _ => Except.ok "") 0
            ⟨"s-22", "/var/log/empty", "smart", 0⟩ = some r
        ∧ r.err = none
        ∧ 1 ≤ (logDataOf r.events).length
        ∧ r.events =
            (logDataOf r.events).map (fun m => Event.send "log_data" (Payload.logData m))
              ++ [ Event.send "log_complete"
                    (Payload.logComplete
                      { SessionID :=
                          logSessionID "mate-1" 0 ⟨"s-22", "/var/log/empty", "smart", 0⟩,
                        TotalSize := [""].length }) ] :=
  ⟨by decide, by decide, by decide,
    (c22_filtered_lines_never_empty "mate-1" (fun _ => Except.ok "") 0
      ⟨"s-22", "/var/log/empty", "smart", 0⟩ "" [""] rfl (by decide)).2.2.2.2.2.2.2⟩

end FleetMate
